import Mathlib

/-!
Verification of the SFL compiler pipeline (herluf-ba/sfl).

This file is a shallow embedding of the Rust sources:
  src/language/token.rs, src/language/types.rs, src/language/cst.rs,
  src/language/ast.rs, src/phase/lexer.rs, src/phase/parser.rs,
  src/phase/ast_builder.rs, src/phase/type_checker.rs, src/phase/interpreter.rs.

Modelling conventions, used throughout:
* Rust `HashMap<String, _>` is modelled as an association list
  `List (String × _)` with first-match lookup; `insert` is modelled by
  consing the new pair in front, which agrees extensionally with the
  HashMap's overwrite semantics.  `HashSet<String>` results are modelled
  as `List String` up to membership.
* Rust `f64` literal payloads are modelled by the exact decimal
  fixed-point type `F64` below (a mantissa together with a number of
  decimal places).  Every numeric value appearing in the claims is a
  small integer, on which IEEE double arithmetic is exact, so the model
  and `f64` agree on all claim-relevant computations.
* A Rust panic (failed `assert!`/`expect`/index out of bounds/`todo!`),
  and likewise non-termination of a loop, is modelled by the value
  `none` of an `Option` result; loops that the source only terminates
  by progress are given explicit fuel, large enough that fuel can only
  run out on runs that diverge in the source.
* `char::is_alphabetic` / `is_whitespace` / `is_digit(10)` are modelled
  by `Char.isAlpha` / `Char.isWhitespace` / `Char.isDigit`, which agree
  on the ASCII fragment exercised by the claims.
* `source_path` fields and diagnostic `Position`/`Message` payloads are
  kept only where a claim depends on them; compiler diagnostics are
  modelled by their message strings.
* The checked-in sources mix the two variants of the repository that
  the specification documents (integer vs real numeric literals): token.rs
  defines `LiteralNumber(f64)` and types.rs defines `TypeFunc::Number`
  (displayed "int"), while type_checker.rs refers to them by the other
  variant's names `TokenKind::LiteralInt` and `TypeFunc::Int`.  The
  embedding uses one constructor for the single numeric literal kind
  (`LiteralNumber`) and one for the single numeric primitive type
  (`Number`), and reads the type checker's `LiteralInt`/`Int` as those.
* `Substitution` has both a trait impl `Substitutable::apply` and an
  inherent method `apply` that delegates to it with receiver and
  argument flipped; Rust method resolution picks the inherent method at
  the type checker's `sX.apply(&sY)` call sites.  The embedding models
  the trait method as `composeSub` and the inherent method as
  `inherentApplySub` and uses the latter at exactly those call sites.
-/

/-- Exact decimal fixed-point model of Rust `f64` literal values: the value
is `mantissa / 10 ^ places`.  `lexeme.parse::<f64>()` on a decimal lexeme,
and addition/subtraction of the small integers occurring in the claims,
are exact in IEEE double precision, so this model agrees with `f64` on all
claim-relevant computations. -/
structure F64 where
  mantissa : Int
  places : Nat
deriving DecidableEq, Repr

/-- Model of `f64` addition (`n1 + n2` in interpreter.rs); exact decimal
arithmetic, which agrees with IEEE on the claims' small integers. -/
def F64.add (a b : F64) : F64 :=
  let d := max a.places b.places
  ⟨a.mantissa * (10 : Int) ^ (d - a.places) + b.mantissa * (10 : Int) ^ (d - b.places), d⟩

/-- Model of `f64` subtraction (`n1 - n2` in interpreter.rs). -/
def F64.sub (a b : F64) : F64 :=
  let d := max a.places b.places
  ⟨a.mantissa * (10 : Int) ^ (d - a.places) - b.mantissa * (10 : Int) ^ (d - b.places), d⟩

/-- lexer.rs `enum LexerError`. -/
inductive LexerError where
  | UnexpectedToken (c : Char) : LexerError
deriving DecidableEq, Repr

/-- token.rs `struct Position`.  The Rust field `end` is a Lean keyword and
is rendered `stop` here. -/
structure Position where
  line : Nat
  column : Nat
  begin : Nat
  stop : Nat
deriving DecidableEq, Repr

/-- token.rs `enum TokenKind`. -/
inductive TokenKind where
  | LiteralNumber (n : F64) : TokenKind
  | LiteralBool (b : Bool) : TokenKind
  | Name (s : String) : TokenKind
  | KeywordIf : TokenKind
  | KeywordElse : TokenKind
  | KeywordLet : TokenKind
  | KeywordThen : TokenKind
  | KeywordDef : TokenKind
  | Plus : TokenKind
  | Minus : TokenKind
  | ParenL : TokenKind
  | ParenR : TokenKind
  | CurlyL : TokenKind
  | CurlyR : TokenKind
  | Arrow : TokenKind
  | Colon : TokenKind
  | Equal : TokenKind
  | Comma : TokenKind
  | Semi : TokenKind
  | Eof : TokenKind
  | Error (e : LexerError) : TokenKind
deriving DecidableEq, Repr

/-- token.rs `struct Token`, without the `source_path` field (a single
source file is involved in every claim). -/
structure Token where
  kind : TokenKind
  position : Position
deriving DecidableEq, Repr

/-- token.rs `impl Display for TokenKind`, as used by `Token::text()`.
Numeric and error payloads are displayed with fixed placeholder text; no
claim depends on the display of those kinds (only `Name`, `Plus` and
`Minus` reach `text()` on the claims' paths). -/
def TokenKind.display : TokenKind → String
  | .LiteralNumber _ => "<number>"
  | .LiteralBool b => if b then "true" else "false"
  | .Name s => s
  | .KeywordIf => "if"
  | .KeywordElse => "else"
  | .KeywordLet => "let"
  | .KeywordThen => "then"
  | .KeywordDef => "def"
  | .Plus => "+"
  | .Minus => "-"
  | .ParenL => "("
  | .ParenR => ")"
  | .CurlyL => "\x7b"
  | .CurlyR => "\x7d"
  | .Arrow => "->"
  | .Colon => ":"
  | .Equal => "="
  | .Comma => ","
  | .Semi => ";"
  | .Eof => "<eof>"
  | .Error _ => "<error>"

/-- token.rs `Token::text()`. -/
def Token.text (t : Token) : String := t.kind.display

mutual

/-- types.rs `enum TType`.  The Rust field name `variable` of `Quantifier`
is a Lean keyword and is rendered `v` here. -/
inductive TType where
  | Variable (name : String) : TType
  | Application (f : TypeFunc) : TType
  | Quantifier (v : String) (inner : TType) : TType

/-- types.rs `enum TypeFunc` (`Number` is the single numeric primitive;
its `Display` shows it as "int", and type_checker.rs calls it `Int`). -/
inductive TypeFunc where
  | Func (input output : TType) : TypeFunc
  | Bool : TypeFunc
  | Number : TypeFunc

end

/-- types.rs `struct Substitution(HashMap<String, TType>)`, modelled as an
association list with first-match lookup. -/
abbrev Substitution := List (String × TType)

/-- types.rs `type Context = HashMap<String, TType>`, modelled the same way. -/
abbrev Context := List (String × TType)

mutual

/-- types.rs `impl Substitutable for TType`: apply a substitution to a type.
`Variable` is looked up (default: unchanged); `Func` recurses on input and
output; ground constructors are returned unchanged; `Quantifier` applies to
the inner type without removing the bound variable, exactly as the source. -/
def applySub (s : Substitution) : TType → TType
  | .Variable name => (s.lookup name).getD (.Variable name)
  | .Application f => .Application (applySubF s f)
  | .Quantifier v inner => .Quantifier v (applySub s inner)

/-- Helper of `applySub` for the `TypeFunc` payload of `TType::Application`. -/
def applySubF (s : Substitution) : TypeFunc → TypeFunc
  | .Func i o => .Func (applySub s i) (applySub s o)
  | .Bool => .Bool
  | .Number => .Number

end

/-- types.rs `impl Substitutable for Context`: apply a substitution to every
range element. -/
def applyCtx (s : Substitution) (ctx : Context) : Context :=
  ctx.map fun kv => (kv.1, applySub s kv.2)

/-- types.rs `impl Substitutable for Substitution` — the *trait* method
`<Substitution as Substitutable>::apply(&r, &a)`: clone the receiver `r`
(the base) and extend it with `a`'s entries, each range element
transformed by `r`; on a key collision the (transformed) entry of `a`
overwrites the entry of `r`, exactly as `HashMap::extend`.  In the
association-list model the transformed entries of `a` are placed in
front, which gives them first-match priority.  Read as a function on
types this is `r ∘ a` (apply `a` first, then `r`). -/
def composeSub (r a : Substitution) : Substitution :=
  (a.map fun kv => (kv.1, applySub r kv.2)) ++ r

/-- types.rs `impl Substitution { fn apply<T: Substitutable>(&self, v: &T) }`
— the *inherent* method, which shadows the trait method at every
substitution-on-substitution call site in type_checker.rs.  Its body
`v.apply(self)` re-enters the `Substitutable` trait with receiver and
argument flipped, so `a.apply(&b)` is the trait apply with *`b` as the
base*: `b`'s own mappings stay untransformed and `a`'s entries are
overlaid transformed by `b` (`a`-side wins on overlap).  Read as a
function on types this is `b ∘ a` (apply `a` first, then `b`).  (For a
`TType` or `Context` argument the same inherent wrapper delegates to the
respective trait impl with the roles one expects, `applySub`/`applyCtx`.) -/
def inherentApplySub (a b : Substitution) : Substitution := composeSub b a

mutual

/-- types.rs `impl FreeVar for TType` (`HashSet<String>` modelled as a list
up to membership).  A `Quantifier` removes its bound variable. -/
def freeVariables : TType → List String
  | .Variable name => [name]
  | .Application f => freeVariablesF f
  | .Quantifier v inner => (freeVariables inner).filter fun x => x ≠ v

/-- Helper of `freeVariables` for the `TypeFunc` payload. -/
def freeVariablesF : TypeFunc → List String
  | .Func i o => freeVariables i ++ freeVariables o
  | .Bool => []
  | .Number => []

end

/-- types.rs `impl FreeVar for Context`: free in Γ iff free in some range. -/
def ctxFreeVariables (ctx : Context) : List String :=
  ctx.flatMap fun kv => freeVariables kv.2

/-- types.rs `TType::contains(&self, other)`: `false` unless `other` is a
`Variable(n)`; otherwise whether `n` occurs in `self` (descending through
quantifiers and function types). -/
def TType.contains : TType → TType → Bool
  | .Variable name, .Variable n => name == n
  | .Quantifier _ inner, .Variable n => inner.contains (.Variable n)
  | .Application (.Func i o), .Variable n =>
      i.contains (.Variable n) || o.contains (.Variable n)
  | .Application .Bool, .Variable _ => false
  | .Application .Number, .Variable _ => false
  | _, .Application _ => false
  | _, .Quantifier _ _ => false

section LookupLemmas

/-- Lookup in a value-mapped association list. -/
theorem lookup_map_value {β γ : Type} (f : β → γ) (x : String) :
    ∀ l : List (String × β),
      (l.map fun kv => (kv.1, f kv.2)).lookup x = (l.lookup x).map f := by
  intro l
  induction l with
  | nil => rfl
  | cons kv rest ih =>
      simp only [List.map, List.lookup]
      by_cases h : x == kv.1
      · simp [h]
      · simp [h, ih]

/-- Lookup distributes over append, preferring the left list. -/
theorem lookup_append_assoc {β : Type} (x : String) :
    ∀ l1 l2 : List (String × β),
      (l1 ++ l2).lookup x = ((l1.lookup x).orElse fun _ => l2.lookup x) := by
  intro l1 l2
  induction l1 with
  | nil => simp [List.lookup, Option.orElse]
  | cons kv rest ih =>
      simp only [List.cons_append, List.lookup]
      by_cases h : x == kv.1
      · simp [h, Option.orElse]
      · simp [h, ih]

end LookupLemmas

mutual

/-- Composition law on types: applying `composeSub s2 s1` equals applying
`s1` and then `s2`. -/
theorem applySub_composeSub (s2 s1 : Substitution) (t : TType) :
    applySub (composeSub s2 s1) t = applySub s2 (applySub s1 t) := by
  cases t with
  | Variable n =>
      simp only [applySub, composeSub, lookup_append_assoc, lookup_map_value]
      cases h : s1.lookup n with
      | none => simp [Option.orElse, applySub]
      | some v => simp [Option.orElse]
  | Application f => simp only [applySub, applySubF_composeSub]
  | Quantifier v inner => simp only [applySub, applySub_composeSub]

/-- The `TypeFunc` form of `applySub_composeSub`. -/
theorem applySubF_composeSub (s2 s1 : Substitution) (f : TypeFunc) :
    applySubF (composeSub s2 s1) f = applySubF s2 (applySubF s1 f) := by
  cases f with
  | Func i o => simp only [applySubF, applySub_composeSub]
  | Bool => rfl
  | Number => rfl

end

/-- Claim C7: for all substitutions `s₁` and `s₂` and every type `τ`,
applying the composed substitution (`s₂.apply(&s₁)` of types.rs, i.e. the
substitution-on-substitution apply operation `s₂ ∘ s₁`) to `τ` equals
applying `s₁` first and then `s₂`: `(s₂ ∘ s₁)(τ) = s₂(s₁(τ))`. -/
theorem C7_substitution_composition (s1 s2 : Substitution) (t : TType) :
    applySub (composeSub s2 s1) t = applySub s2 (applySub s1 t) :=
  applySub_composeSub s2 s1 t

/-! ## ast.rs -/

/-- ast.rs `enum Ast`. -/
inductive Ast where
  | Err : Ast
  | Expr (e : Ast) : Ast
  | Abstraction (t : Token) (body : Ast) : Ast
  | Application (e1 e2 : Ast) : Ast
  | Literal (t : Token) : Ast
  | Let (t : Token) (e1 e2 : Ast) : Ast
  | Name (t : Token) : Ast
  | BinaryOp (t : Token) (e1 e2 : Ast) : Ast
deriving DecidableEq, Repr

/-! ## type_checker.rs

The checker's mutable state is `variable_counter` and the `errors` vector;
diagnostics are modelled by their message strings (positions and the
`indicator_message`/`fix_hint` fields are dropped; no claim depends on
them).  The quoting punctuation of the Rust `format!` strings is dropped
from the message texts; the words are kept. -/

/-- Result of a fallible checker operation, Rust `Result<α, ()>`. -/
inductive TCResult (α : Type) where
  | ok (a : α) : TCResult α
  | err : TCResult α
deriving DecidableEq, Repr

/-- type_checker.rs `struct TypeChecker` mutable state. -/
structure TCState where
  counter : Nat
  errors : List String
deriving DecidableEq, Repr

/-- type_checker.rs `TypeChecker::built_in`: `+` and `-` have type
`Int -> Int -> Int` (the numeric primitive is `TypeFunc::Number` of
types.rs, which `Display`s as "int"). -/
def builtIn (t : Token) : Option TType :=
  match t.kind with
  | .Plus => some (.Application (.Func (.Application .Number)
      (.Application (.Func (.Application .Number) (.Application .Number)))))
  | .Minus => some (.Application (.Func (.Application .Number)
      (.Application (.Func (.Application .Number) (.Application .Number)))))
  | _ => none

/-- type_checker.rs `TypeChecker::variable`: the monotonic fresh-variable
counter yields names `t0, t1, …`. -/
def freshVariable (st : TCState) : TType × TCState :=
  (.Variable ("t" ++ toString st.counter), { st with counter := st.counter + 1 })

/-- type_checker.rs `TypeChecker::instantiate`: unwrap quantifiers in
order, mapping each bound variable to a fresh variable, then apply the
accumulated mapping to the body.  (The Rust `Option<Substitution>`
argument defaults to the empty mapping; callers pass `[]` here.) -/
def instantiate (p : TType) (m : Substitution) (st : TCState) : TType × TCState :=
  match p with
  | .Quantifier v inner =>
      let (fresh, st') := freshVariable st
      instantiate inner ((v, fresh) :: m) st'
  | .Variable n => (applySub m (.Variable n), st)
  | .Application f => (applySub m (.Application f), st)

/-- Rust `HashMap::insert` on a context: overwrite the binding of `k`. -/
def ctxInsert (k : String) (v : TType) (ctx : Context) : Context :=
  (k, v) :: ctx.filter fun p => p.1 != k

/-- type_checker.rs `TypeChecker::generalize`:
`gen(Γ, τ) = ∀a₁…aₙ. τ` with `{aᵢ} = FV(τ) \ FV(Γ)`, folding quantifiers
around `τ`.  The Rust fold iterates a `HashSet` in unspecified order; the
model fixes the admissible order given by `List.dedup` of the free-variable
list (every generalization reached by a claim binds at most one variable,
where all orders coincide). -/
def generalize (ctx : Context) (p : TType) : TType :=
  let quantifiers :=
    (freeVariables p).dedup.filter fun v => !((ctxFreeVariables ctx).contains v)
  quantifiers.foldl (fun p q => TType.Quantifier q p) p

mutual

/-- types.rs `impl Display for TType`. -/
def TType.display : TType → String
  | .Variable v => v
  | .Application f => f.display
  | .Quantifier v inner => "∀" ++ v ++ " " ++ inner.display

/-- types.rs `impl Display for TypeFunc` (`Number` displays as "int"). -/
def TypeFunc.display : TypeFunc → String
  | .Func i o => i.display ++ " -> " ++ o.display
  | .Bool => "bool"
  | .Number => "int"

end

/-- The `(TType::Variable(x), _)` arm of `unify` (type_checker.rs lines
79–93): the occurs check tests `a.contains(b)` — whether `b` occurs in the
*variable* `a` — and, whether or not the "infinite type detected" message
is pushed, the arm returns `Ok` with the singleton substitution. -/
def unifyVariableArm (x : String) (a b : TType) (st : TCState) :
    TCResult Substitution × TCState :=
  let st' :=
    if a.contains b then { st with errors := st.errors ++ ["infinite type detected"] }
    else st
  (.ok [(x, b)], st')

/-- type_checker.rs `TypeChecker::unify`.  `gas` bounds the recursion
depth; `none` models a run that the Rust code can only finish by
exhausting the call stack (with the inverted occurs check, `unify` is not
terminating in general).  The `expr` argument only carries the position
for diagnostics in the source and is kept for shape.  The Func arm's
`Ok(s1.apply(&s2))` resolves through the inherent method
(`inherentApplySub s1 s2 = composeSub s2 s1`). -/
def unify : Nat → Ast → TType → TType → TCState →
    Option (TCResult Substitution × TCState)
  | 0, _, _, _, _ => none
  | gas + 1, expr, a, b, st =>
    match a, b with
    | .Variable x, .Variable y =>
        if x = y then some (.ok [], st)
        else some (unifyVariableArm x (.Variable x) (.Variable y) st)
    | .Variable x, _ => some (unifyVariableArm x (.Variable x) b st)
    | _, .Variable _ => unify gas expr b a st
    | .Application x, .Application y =>
        match x, y with
        | .Func i1 o1, .Func i2 o2 =>
            match unify gas expr i1 i2 st with
            | none => none
            | some (.err, st1) => some (.err, st1)
            | some (.ok s1, st1) =>
                match unify gas expr (applySub s1 o1) (applySub s1 o2) st1 with
                | none => none
                | some (.err, st2) => some (.err, st2)
                | some (.ok s2, st2) => some (.ok (inherentApplySub s1 s2), st2)
        | .Bool, .Bool => some (.ok [], st)
        | .Number, .Number => some (.ok [], st)
        | _, _ =>
            some (.err, { st with errors := st.errors ++
              ["expected " ++ a.display ++ " but found " ++ b.display] })
    | _, _ =>
        some (.err, { st with errors := st.errors ++
          ["expected " ++ a.display ++ " found " ++ b.display] })

/-- type_checker.rs `TypeChecker::w` (Algorithm W).  `gas` bounds the
recursion depth of `w` and of the `unify` it calls (the Rust functions
recurse on the call stack; every claim instantiates `gas` large enough
that it cannot run out on the claim's input).  The numeric literal arm is
the source's `TokenKind::LiteralInt(_)` pattern, whose kind token.rs names
`LiteralNumber` (see the file header); unmatched literal kinds give
`Err(())` as in the source.  The substitution compositions
`s3.apply(&s2.apply(&s1))` (Application) and `s2.apply(&s1)` (Let)
resolve through the inherent method: `inherentApplySub a b =
composeSub b a`. -/
def w : Nat → Context → Ast → TCState →
    Option (TCResult (Substitution × TType) × TCState)
  | 0, _, _, _ => none
  | gas + 1, ctx, expr, st =>
    match expr with
    | .Expr e => w gas ctx e st
    | .Literal l =>
        match l.kind with
        | .LiteralNumber _ => some (.ok ([], .Application .Number), st)
        | .LiteralBool _ => some (.ok ([], .Application .Bool), st)
        | _ => some (.err, st)
    | .Name n =>
        match ctx.lookup n.text with
        | some t =>
            let (ti, st1) := instantiate t [] st
            some (.ok ([], ti), st1)
        | none =>
            match builtIn n with
            | some t =>
                let (ti, st1) := instantiate t [] st
                some (.ok ([], ti), st1)
            | none =>
                some (.err, { st with errors := st.errors ++
                  [n.text ++ " is not defined here"] })
    | .Abstraction n e =>
        let (var, st1) := freshVariable st
        match w gas (ctxInsert n.text var ctx) e st1 with
        | none => none
        | some (.err, st2) => some (.err, st2)
        | some (.ok (s, et), st2) =>
            some (.ok (s, applySub s (.Application (.Func var et))), st2)
    | .Application e1 e2 =>
        match w gas ctx e1 st with
        | none => none
        | some (.err, st1) => some (.err, st1)
        | some (.ok (s1, t1), st1) =>
            match w gas (applyCtx s1 ctx) e2 st1 with
            | none => none
            | some (.err, st2) => some (.err, st2)
            | some (.ok (s2, t2), st2) =>
                let (var, st3) := freshVariable st2
                match unify gas e2 (applySub s2 t1)
                    (.Application (.Func t2 var)) st3 with
                | none => none
                | some (.err, st4) => some (.err, st4)
                | some (.ok s3, st4) =>
                    some (.ok (inherentApplySub s3 (inherentApplySub s2 s1),
                      applySub s3 var), st4)
    | .Let n e1 e2 =>
        match w gas ctx e1 st with
        | none => none
        | some (.err, st1) => some (.err, st1)
        | some (.ok (s1, t1), st1) =>
            let newCtx := applyCtx s1 ctx
            match w gas (ctxInsert n.text (generalize newCtx t1) newCtx) e2 st1 with
            | none => none
            | some (.err, st2) => some (.err, st2)
            | some (.ok (s2, t2), st2) => some (.ok (inherentApplySub s2 s1, t2), st2)
    | .Err => some (.err, st)
    | .BinaryOp t e1 e2 =>
        w gas ctx (.Application (.Application (.Name t) e1) e2) st

/-! ## interpreter.rs -/

/-- interpreter.rs `enum Value`. -/
inductive Value where
  | Bool (b : Bool) : Value
  | Number (n : F64) : Value
  | Func (t : Token) (body : Ast) : Value
deriving DecidableEq, Repr

/-- The interpreter's `HashMap<String, Value>` environment, modelled as an
association list with first-match lookup. -/
abbrev Environment := List (String × Value)

/-- Rust `HashMap::insert` on an environment: overwrite the binding of `k`. -/
def envInsert (k : String) (v : Value) (env : Environment) : Environment :=
  (k, v) :: env.filter fun p => p.1 != k

/-- interpreter.rs `Interpreter::interpret`.  The `&mut` environment is
threaded as state; the environment is only ever extended (`insert` in the
`Let` and `Application` arms), never restored or pruned.  `TCResult.err`
is the source's `Err(())` (reached only through `Ast::Err`); `none` models
a panic (unknown name, unhandled literal kind or operator, applying a
non-function) or recursion past `gas` (the Rust recursion is bounded only
by the call stack and can diverge). -/
def interpret : Nat → Ast → Environment → Option (TCResult Value × Environment)
  | 0, _, _ => none
  | gas + 1, ast, env =>
    match ast with
    | .Err => some (.err, env)
    | .Expr e => interpret gas e env
    | .Literal t =>
        match t.kind with
        | .LiteralNumber v => some (.ok (.Number v), env)
        | .LiteralBool b => some (.ok (.Bool b), env)
        | _ => none
    | .Name t =>
        match env.lookup t.text with
        | some v => some (.ok v, env)
        | none => none
    | .Let t e1 e2 =>
        match interpret gas e1 env with
        | none => none
        | some (.err, env1) => some (.err, env1)
        | some (.ok r1, env1) => interpret gas e2 (envInsert t.text r1 env1)
    | .BinaryOp t e1 e2 =>
        match interpret gas e1 env with
        | none => none
        | some (.err, env1) => some (.err, env1)
        | some (.ok r1, env1) =>
            match interpret gas e2 env1 with
            | none => none
            | some (.err, env2) => some (.err, env2)
            | some (.ok r2, env2) =>
                match t.kind with
                | .Plus =>
                    match r1, r2 with
                    | .Number n1, .Number n2 => some (.ok (.Number (n1.add n2)), env2)
                    | _, _ => none
                | .Minus =>
                    match r1, r2 with
                    | .Number n1, .Number n2 => some (.ok (.Number (n1.sub n2)), env2)
                    | _, _ => none
                | _ => none
    | .Abstraction t e => some (.ok (.Func t e), env)
    | .Application e1 e2 =>
        match interpret gas e1 env with
        | none => none
        | some (.err, env1) => some (.err, env1)
        | some (.ok v1, env1) =>
            match v1 with
            | .Func t fast =>
                match interpret gas e2 env1 with
                | none => none
                | some (.err, env2) => some (.err, env2)
                | some (.ok v2, env2) => interpret gas fast (envInsert t.text v2 env2)
            | _ => none

/-! ## Concrete claim inputs

The type-checker and interpreter claims evaluate `w`/`interpret` on
abstract syntax trees given directly (their sources cite only those
phases); token positions are irrelevant to both phases as modelled and
are set to zero. -/

/-- A `Name` token with zeroed position. -/
def tkName (s : String) : Token := ⟨.Name s, ⟨0, 0, 0, 0⟩⟩

/-- A numeric literal token with zeroed position. -/
def tkNum (n : Int) : Token := ⟨.LiteralNumber ⟨n, 0⟩, ⟨0, 0, 0, 0⟩⟩

/-- The abstract syntax of `\x -> x x`. -/
def selfApply : Ast :=
  .Abstraction (tkName "x") (.Application (.Name (tkName "x")) (.Name (tkName "x")))

/-- The abstract syntax of `\y -> y`. -/
def lamIdY : Ast := .Abstraction (tkName "y") (.Name (tkName "y"))

/-- The abstract syntax of `let id = \x -> x in id`. -/
def exprLetId : Ast :=
  .Let (tkName "id") (.Abstraction (tkName "x") (.Name (tkName "x"))) (.Name (tkName "id"))

/-- The abstract syntax of `let id = \x -> x in (id (\y -> y)) (id 1)`:
`id` is applied at the two incompatible argument types `τ → τ` and `Int`. -/
def exprPolyUse : Ast :=
  .Let (tkName "id") (.Abstraction (tkName "x") (.Name (tkName "x")))
    (.Application (.Application (.Name (tkName "id")) lamIdY)
      (.Application (.Name (tkName "id")) (.Literal (tkNum 1))))

/-- The same body with `id` introduced by a lambda instead of a let:
`(\id -> (id (\y -> y)) (id 1)) (\x -> x)`. -/
def exprLamVersion : Ast :=
  .Application
    (.Abstraction (tkName "id")
      (.Application (.Application (.Name (tkName "id")) lamIdY)
        (.Application (.Name (tkName "id")) (.Literal (tkNum 1)))))
    (.Abstraction (tkName "x") (.Name (tkName "x")))

/-- Claim C1 (refuted by the code; the dead diagnostic branch shows the
claim is the intent): unifying `Var("t0")` against `t0 → t1`, in which
`t0` occurs, does *not* fail and does *not* report `infinite type` — the
`(Variable(x), _)` arm tests `a.contains(b)`, i.e. whether τ occurs in the
variable (never true there), and returns `Ok({x ↦ τ})` regardless; and
`w(Γ, λx. x x)` consequently succeeds with type `(t0 → t1) → t1` and an
empty error list instead of reporting `infinite type`. -/
theorem C1_occurs_check_never_fires :
    unify 100 Ast.Err (.Variable "t0")
        (.Application (.Func (.Variable "t0") (.Variable "t1"))) ⟨0, []⟩ =
      some (.ok [("t0", .Application (.Func (.Variable "t0") (.Variable "t1")))], ⟨0, []⟩)
    ∧ w 100 [] selfApply ⟨0, []⟩ =
      some (.ok ([("t0", .Application (.Func (.Variable "t0") (.Variable "t1")))],
        .Application (.Func (.Application (.Func (.Variable "t0") (.Variable "t1")))
          (.Variable "t1"))), ⟨2, []⟩) :=
  ⟨rfl, rfl⟩

/-- Whether a type is an outermost universal quantifier. -/
def TType.isQuantifier : TType → Bool
  | .Quantifier _ _ => true
  | _ => false

/-- Claim C4, counterexample: `let id = \x -> x in id` does not type-check
to the polytype `∀a. a → a` — `w` returns the unquantified monotype
`t1 → t1` (the let rule returns the body's instantiated type and nothing
generalizes the top-level result). -/
theorem C4_counterexample_monotype :
    w 100 [] exprLetId ⟨0, []⟩ =
      some (.ok ([], .Application (.Func (.Variable "t1") (.Variable "t1"))), ⟨2, []⟩)
    ∧ TType.isQuantifier
        (.Application (.Func (.Variable "t1") (.Variable "t1"))) = false :=
  ⟨rfl, rfl⟩

/-- Claim C4, amended: `let id = \x -> x in id` type-checks to the
monotype `a → a` at a fresh type variable (here `t1 → t1`, not explicitly
quantified — generalization happens only inside the let's context), and
evaluates to a function value; applying `id` at two incompatible argument
types succeeds (type `int`, no errors), whereas the same body with `id`
introduced by a lambda rather than a let fails to type-check. -/
theorem C4_amended_let_generalization :
    w 100 [] exprLetId ⟨0, []⟩ =
      some (.ok ([], .Application (.Func (.Variable "t1") (.Variable "t1"))), ⟨2, []⟩)
    ∧ interpret 100 exprLetId [] =
      some (.ok (.Func (tkName "x") (.Name (tkName "x"))),
        [("id", .Func (tkName "x") (.Name (tkName "x")))])
    ∧ w 100 [] exprPolyUse ⟨0, []⟩ =
      some (.ok ([("t2", .Application .Number), ("t6", .Application .Number),
        ("t4", .Application .Number), ("t5", .Application .Number),
        ("t1", .Application (.Func (.Variable "t2") (.Variable "t2"))),
        ("t3", .Application (.Func (.Variable "t2") (.Variable "t2")))],
        .Application .Number), ⟨7, []⟩)
    ∧ w 100 [] exprLamVersion ⟨0, []⟩ =
      some (.err, ⟨4, ["expected t1 -> t1 but found int"]⟩) :=
  ⟨rfl, rfl, rfl, rfl⟩

/-! ## Claim C3: the application rule and substitution composition -/

/-- Composition as claim C3's words describe it: apply `s` to every range
element of `t`, *then overlay `s`'s own mappings* — so `s`'s own mappings
take precedence on an overlapping key.  Stated only to compare against the
source's `composeSub`, in which the transformed entries of `t` take
precedence (`HashMap::extend` overwrites the receiver's entries). -/
def composeOverlaySpec (s t : Substitution) : Substitution :=
  s ++ (t.map fun kv => (kv.1, applySub s kv.2))

/-- The substitution `s₁` of `w(Γ, \x -> x x)`: `{t0 ↦ t0 → t1}`. -/
def c3S1 : Substitution :=
  [("t0", .Application (.Func (.Variable "t0") (.Variable "t1")))]

/-- The type `τ₁ = (t0 → t1) → t1`, the type of `\x -> x x`. -/
def c3T1 : TType :=
  .Application (.Func (.Application (.Func (.Variable "t0") (.Variable "t1"))) (.Variable "t1"))

/-- The abstract syntax of `\y -> y 1`. -/
def lamApplyY1 : Ast :=
  .Abstraction (tkName "y")
    (.Application (.Name (tkName "y")) (.Literal (tkNum 1)))

/-- The substitution `s₂` of `w(s₁·Γ, \y -> y 1)`: `{t2 ↦ int → t3}`. -/
def c3S2 : Substitution :=
  [("t2", .Application (.Func (.Application .Number) (.Variable "t3")))]

/-- The type `τ₂ = (int → t3) → t3`, the type of `\y -> y 1` under the
counter state left by e₁. -/
def c3T2 : TType :=
  .Application (.Func (.Application (.Func (.Application .Number) (.Variable "t3")))
    (.Variable "t3"))

/-- The substitution `s₃ = unify(s₂·τ₁, τ₂ → t4)`:
`{t0 ↦ int → t4, t1 ↦ t4, t3 ↦ t4}`. -/
def c3S3 : Substitution :=
  [("t0", .Application (.Func (.Application .Number) (.Variable "t4"))),
   ("t1", .Variable "t4"), ("t3", .Variable "t4")]

/-- The substitution the code returns for `(\x -> x x) (\y -> y 1)`:
`inherentApplySub c3S3 (inherentApplySub c3S2 c3S1)` — `s₃`'s entries
transformed by `s₁ ∘ s₂` in front of the *untransformed* `s₂`-then-`s₁`
base entries, so the first-match entry for `t2` is `s₂`'s own
`t2 ↦ int → t3`, never touched by `s₃`. -/
def c3CodeSub : Substitution :=
  [("t0", .Application (.Func (.Application .Number) (.Variable "t4"))),
   ("t1", .Variable "t4"), ("t3", .Variable "t4"),
   ("t2", .Application (.Func (.Application .Number) (.Variable "t3"))),
   ("t0", .Application (.Func (.Variable "t0") (.Variable "t1")))]

/-- The abstract syntax of `(\x -> x x) (\y -> y 1)`. -/
def exprC3App : Ast := .Application selfApply lamApplyY1

/-- Claim C3, counterexample: on the application node
`(\x -> x x) (\y -> y 1)` the code computes, exactly as the claim's
recipe, `s₁ = {t0 ↦ t0 → t1}`, `s₂ = {t2 ↦ int → t3}`, fresh
`α = t4` and `s₃ = {t0 ↦ int → t4, t1 ↦ t4, t3 ↦ t4}` — but the
returned substitution is `s3.apply(&s2.apply(&s1))` through the
*inherent* `Substitution::apply`, which keeps the `s₂`/`s₁` base entries
untransformed: it maps `t2` to `s₂`'s own `int → t3`.  Composition as
worded by the claim (`s₃ ∘ s₂ ∘ s₁` with each `s ∘ t` transforming `t`'s
ranges by `s`) instead maps `t2` to `int → t4`, under either association,
and so does genuine function composition `τ ↦ s₃(s₂(s₁(τ)))`.  The claim
is false of the code at this input. -/
theorem C3_counterexample_composition_order :
    w 100 [] selfApply ⟨0, []⟩ = some (.ok (c3S1, c3T1), ⟨2, []⟩)
    ∧ w 100 (applyCtx c3S1 []) lamApplyY1 ⟨2, []⟩ = some (.ok (c3S2, c3T2), ⟨4, []⟩)
    ∧ freshVariable ⟨4, []⟩ = (.Variable "t4", ⟨5, []⟩)
    ∧ unify 100 lamApplyY1 (applySub c3S2 c3T1)
        (.Application (.Func c3T2 (.Variable "t4"))) ⟨5, []⟩ =
      some (.ok c3S3, ⟨5, []⟩)
    ∧ w 100 [] exprC3App ⟨0, []⟩ = some (.ok (c3CodeSub, .Variable "t4"), ⟨5, []⟩)
    ∧ c3CodeSub = inherentApplySub c3S3 (inherentApplySub c3S2 c3S1)
    ∧ c3CodeSub.lookup "t2" =
        some (.Application (.Func (.Application .Number) (.Variable "t3")))
    ∧ (composeOverlaySpec c3S3 (composeOverlaySpec c3S2 c3S1)).lookup "t2" =
        some (.Application (.Func (.Application .Number) (.Variable "t4")))
    ∧ (composeOverlaySpec (composeOverlaySpec c3S3 c3S2) c3S1).lookup "t2" =
        some (.Application (.Func (.Application .Number) (.Variable "t4")))
    ∧ applySub c3CodeSub (.Variable "t2") =
        .Application (.Func (.Application .Number) (.Variable "t3"))
    ∧ applySub c3S3 (applySub c3S2 (applySub c3S1 (.Variable "t2"))) =
        .Application (.Func (.Application .Number) (.Variable "t4")) :=
  ⟨rfl, rfl, rfl, rfl, rfl, rfl, rfl, rfl, rfl, rfl, rfl⟩

/-- The application-node recipe of type_checker.rs as the amended claim
states it: `(s₁,τ₁) = w(Γ,e₁)`; `(s₂,τ₂) = w(s₁·Γ,e₂)`; fresh `α`;
`s₃ = unify(s₂·τ₁, τ₂ → α)`; result
`(inherentApplySub s₃ (inherentApplySub s₂ s₁), s₃·α)` — the source's
`s3.apply(&s2.apply(&s1))` resolved through the inherent method, i.e.
`(s₁ ∘ s₂) ∘ s₃` read as functions — each failure (or `gas` exhaustion)
propagated. -/
def wApplicationRecipe (gas : Nat) (ctx : Context) (e1 e2 : Ast) (st : TCState) :
    Option (TCResult (Substitution × TType) × TCState) :=
  match w gas ctx e1 st with
  | none => none
  | some (.err, st1) => some (.err, st1)
  | some (.ok (s1, t1), st1) =>
      match w gas (applyCtx s1 ctx) e2 st1 with
      | none => none
      | some (.err, st2) => some (.err, st2)
      | some (.ok (s2, t2), st2) =>
          let (var, st3) := freshVariable st2
          match unify gas e2 (applySub s2 t1) (.Application (.Func t2 var)) st3 with
          | none => none
          | some (.err, st4) => some (.err, st4)
          | some (.ok s3, st4) =>
              some (.ok (inherentApplySub s3 (inherentApplySub s2 s1),
                applySub s3 var), st4)

/-- Claim C3, amended: for every application node `e₁ e₂`, `w` computes
`(s₁,τ₁) = w(Γ,e₁)`, then `(s₂,τ₂) = w(s₁·Γ,e₂)`, picks a fresh `α`,
computes `s₃ = unify(s₂·τ₁, τ₂ → α)` and returns
`((s₁ ∘ s₂) ∘ s₃, s₃·α)`: the calls `s3.apply(&s2.apply(&s1))` resolve
through the inherent `Substitution::apply`, which flips receiver and
argument into the trait apply, so each composition `b ∘ a`
(`composeSub b a`) keeps `b`'s own mappings untransformed and overlays
`a`'s entries transformed by `b`, the `a`-side winning on overlap; read
as a function the returned substitution applies `s₃` first, then `s₂`,
then `s₁`. -/
theorem C3_amended_application_rule (gas : Nat) (ctx : Context) (e1 e2 : Ast)
    (st : TCState) :
    w (gas + 1) ctx (.Application e1 e2) st = wApplicationRecipe gas ctx e1 e2 st :=
  rfl

/-! ## Claim C9: environment bindings persist -/

/-- Filtering out another key does not change a lookup. -/
theorem lookup_filter_ne {β : Type} (k x : String) (h : ¬ k = x) :
    ∀ l : List (String × β), (l.filter fun p => p.1 != x).lookup k = l.lookup k := by
  intro l
  induction l with
  | nil => rfl
  | cons kv rest ih =>
      by_cases hx : kv.1 = x
      · have : (kv.1 != x) = false := by simp [hx]
        simp only [List.filter, this, ih]
        have : (k == kv.1) = false := by simp [hx, h]
        simp [List.lookup, this]
      · have : (kv.1 != x) = true := by simp [hx]
        simp only [List.filter, this, List.lookup, ih]

/-- Inserting with `envInsert` preserves the definedness of every lookup. -/
theorem envInsert_lookup_isSome (k x : String) (v : Value) (env : Environment)
    (hk : (env.lookup k).isSome = true) :
    ((envInsert x v env).lookup k).isSome = true := by
  by_cases hkx : k = x
  · simp [envInsert, List.lookup, hkx]
  · have : (k == x) = false := by simp [hkx]
    simp [envInsert, List.lookup, this, lookup_filter_ne k x hkx, hk]

/-- The interpreter never removes an environment binding: any key defined
before a (terminating) interpretation is defined after it. -/
theorem interpret_env_mono :
    ∀ (gas : Nat) (e : Ast) (env : Environment) (r : TCResult Value)
      (env' : Environment),
      interpret gas e env = some (r, env') →
      ∀ k : String, (env.lookup k).isSome = true → (env'.lookup k).isSome = true := by
  intro gas
  induction gas with
  | zero => intro e env r env' h; simp [interpret] at h
  | succ g ih =>
      intro e env r env' h k hk
      cases e with
      | Err =>
          simp only [interpret, Option.some.injEq, Prod.mk.injEq] at h
          exact h.2 ▸ hk
      | Expr e => exact ih e env r env' h k hk
      | Literal t =>
          obtain ⟨tk, tpos⟩ := t
          simp only [interpret] at h
          cases tk <;> simp only [Option.some.injEq, Prod.mk.injEq,
            reduceCtorEq] at h <;> exact h.2 ▸ hk
      | Name t =>
          simp only [interpret] at h
          cases hl : List.lookup t.text env with
          | none => rw [hl] at h; simp at h
          | some v =>
              rw [hl] at h
              simp only [Option.some.injEq, Prod.mk.injEq] at h
              exact h.2 ▸ hk
      | Abstraction t e =>
          simp only [interpret, Option.some.injEq, Prod.mk.injEq] at h
          exact h.2 ▸ hk
      | Let t e1 e2 =>
          simp only [interpret] at h
          cases h1 : interpret g e1 env with
          | none => rw [h1] at h; simp at h
          | some p =>
              obtain ⟨r1, env1⟩ := p
              rw [h1] at h
              cases r1 with
              | err =>
                  simp only [Option.some.injEq, Prod.mk.injEq] at h
                  exact h.2 ▸ ih e1 env .err env1 h1 k hk
              | ok v1 =>
                  simp only [] at h
                  exact ih e2 _ r env' h k
                    (envInsert_lookup_isSome k t.text v1 env1 (ih e1 env (.ok v1) env1 h1 k hk))
      | BinaryOp t e1 e2 =>
          obtain ⟨tk, tpos⟩ := t
          simp only [interpret] at h
          cases h1 : interpret g e1 env with
          | none => rw [h1] at h; simp at h
          | some p =>
              obtain ⟨r1, env1⟩ := p
              rw [h1] at h
              cases r1 with
              | err =>
                  simp only [Option.some.injEq, Prod.mk.injEq] at h
                  exact h.2 ▸ ih e1 env .err env1 h1 k hk
              | ok v1 =>
                  simp only [] at h
                  have henv1 : (List.lookup k env1).isSome = true :=
                    ih e1 env (.ok v1) env1 h1 k hk
                  cases h2 : interpret g e2 env1 with
                  | none => rw [h2] at h; simp at h
                  | some q =>
                      obtain ⟨r2, env2⟩ := q
                      rw [h2] at h
                      have henv2 : (List.lookup k env2).isSome = true :=
                        ih e2 env1 r2 env2 h2 k henv1
                      cases r2 with
                      | err =>
                          simp only [Option.some.injEq, Prod.mk.injEq] at h
                          exact h.2 ▸ henv2
                      | ok v2 =>
                          simp only [] at h
                          cases tk <;> cases v1 <;> cases v2 <;>
                            simp only [Option.some.injEq, Prod.mk.injEq,
                              reduceCtorEq] at h <;> exact h.2 ▸ henv2
      | Application e1 e2 =>
          simp only [interpret] at h
          cases h1 : interpret g e1 env with
          | none => rw [h1] at h; simp at h
          | some p =>
              obtain ⟨r1, env1⟩ := p
              rw [h1] at h
              cases r1 with
              | err =>
                  simp only [Option.some.injEq, Prod.mk.injEq] at h
                  exact h.2 ▸ ih e1 env .err env1 h1 k hk
              | ok v1 =>
                  simp only [] at h
                  have henv1 : (List.lookup k env1).isSome = true :=
                    ih e1 env (.ok v1) env1 h1 k hk
                  cases v1 with
                  | Bool b => simp at h
                  | Number n => simp at h
                  | Func tf fast =>
                      simp only [] at h
                      cases h2 : interpret g e2 env1 with
                      | none => rw [h2] at h; simp at h
                      | some q =>
                          obtain ⟨r2, env2⟩ := q
                          rw [h2] at h
                          have henv2 : (List.lookup k env2).isSome = true :=
                            ih e2 env1 r2 env2 h2 k henv1
                          cases r2 with
                          | err =>
                              simp only [Option.some.injEq, Prod.mk.injEq] at h
                              exact h.2 ▸ henv2
                          | ok v2 =>
                              simp only [] at h
                              exact ih fast _ r env' h k
                                (envInsert_lookup_isSome k tf.text v2 env2 henv2)

/-- Claim C9: a successful application inserts the callee's parameter
binding into the caller's environment and never removes it (the final
environment still binds the parameter name), and a let's bound name
likewise persists after the let's body — so expressions evaluated
afterwards in the same environment can observe bindings whose scope has
ended. -/
theorem C9_bindings_persist :
    (∀ (gas : Nat) (e1 e2 : Ast) (env : Environment) (v : Value)
        (env' env1 : Environment) (p : Token) (body : Ast),
      interpret (gas + 1) (.Application e1 e2) env = some (.ok v, env') →
      interpret gas e1 env = some (.ok (.Func p body), env1) →
      (env'.lookup p.text).isSome = true)
    ∧ (∀ (gas : Nat) (t : Token) (e1 e2 : Ast) (env : Environment) (v : Value)
        (env' : Environment),
      interpret (gas + 1) (.Let t e1 e2) env = some (.ok v, env') →
      (env'.lookup t.text).isSome = true) := by
  constructor
  · intro gas e1 e2 env v env' env1 p body h h1
    simp only [interpret] at h
    rw [h1] at h
    simp only [] at h
    cases h2 : interpret gas e2 env1 with
    | none => rw [h2] at h; simp at h
    | some q =>
        obtain ⟨r2, env2⟩ := q
        rw [h2] at h
        cases r2 with
        | err => simp at h
        | ok v2 =>
            simp only [] at h
            refine interpret_env_mono gas body _ (.ok v) env' h p.text ?_
            simp [envInsert, List.lookup]
  · intro gas t e1 e2 env v env' h
    simp only [interpret] at h
    cases h1 : interpret gas e1 env with
    | none => rw [h1] at h; simp at h
    | some q =>
        obtain ⟨r1, env1⟩ := q
        rw [h1] at h
        cases r1 with
        | err => simp at h
        | ok v1 =>
            simp only [] at h
            refine interpret_env_mono gas e2 _ (.ok v) env' h t.text ?_
            simp [envInsert, List.lookup]

/-- The abstract syntax of `(\x -> x) 5`. -/
def exprApplyIdFive : Ast :=
  .Application (.Abstraction (tkName "x") (.Name (tkName "x"))) (.Literal (tkNum 5))

/-- Witness for C9: `(\x -> x) 5` evaluates to `5` leaving `x ↦ 5` in the
environment, and `let id = \x -> x in id` leaves `id` bound; evaluating
the bare name `x` afterwards in the leaked environment succeeds. -/
theorem C9_witness :
    ((([("x", Value.Number ⟨5, 0⟩)] : Environment).lookup
        (tkName "x").text).isSome = true)
    ∧ ((([("id", Value.Func (tkName "x") (.Name (tkName "x")))] :
          Environment).lookup (tkName "id").text).isSome = true)
    ∧ interpret 100 (.Name (tkName "x")) [("x", Value.Number ⟨5, 0⟩)] =
        some (.ok (Value.Number ⟨5, 0⟩), [("x", Value.Number ⟨5, 0⟩)]) :=
  ⟨C9_bindings_persist.1 99 (.Abstraction (tkName "x") (.Name (tkName "x")))
      (.Literal (tkNum 5)) [] (.Number ⟨5, 0⟩) [("x", Value.Number ⟨5, 0⟩)] []
      (tkName "x") (.Name (tkName "x")) rfl rfl,
   C9_bindings_persist.2 99 (tkName "id")
      (.Abstraction (tkName "x") (.Name (tkName "x"))) (.Name (tkName "id")) []
      (.Func (tkName "x") (.Name (tkName "x")))
      [("id", Value.Func (tkName "x") (.Name (tkName "x")))] rfl,
   rfl⟩

/-! ## lexer.rs

The lexer state is threaded explicitly.  `nth` returns `none` exactly
when `characters` is empty: there `(self.end + lookahead).min(self.characters.len() - 1)`
underflows the `usize` subtraction and the subsequent index panics.
Loops carry fuel; each loop iteration that continues consumes a source
character except for the divergent corner cases noted on `comments`, so
the fuel chosen in `Lexer.nextToken` can only run out on a run that does
not terminate in the source. -/

namespace Lexer

/-- lexer.rs `struct Lexer` (the `source_path` field is dropped and
`Message` errors are modelled by their message strings; `end` is rendered
`stop`). -/
structure LexState where
  isOk : Bool
  begin : Nat
  stop : Nat
  line : Nat
  column : Nat
  startColumn : Nat
  characters : List Char
  errors : List String
deriving DecidableEq, Repr

/-- Rust `Lexer::new` for a source string. -/
def init (source : String) : LexState :=
  ⟨true, 0, 0, 0, 0, 0, source.data, []⟩

/-- Rust `Lexer::eof`. -/
def eof (st : LexState) : Bool := st.stop ≥ st.characters.length

/-- Rust `Lexer::advance`: consume one character, updating `line`/`column`
(column resets after a newline). -/
def advance (st : LexState) : Option Char × LexState :=
  if st.stop ≥ st.characters.length then (none, st)
  else
    let c := st.characters.getD st.stop ' '
    let st1 := { st with stop := st.stop + 1, column := st.column + 1 }
    if c = '\n' then
      (some c, { st1 with line := st1.line + 1, column := 0, startColumn := 0 })
    else (some c, st1)

/-- Rust `Lexer::nth`: peek `lookahead` characters ahead, clamped to the last
index.  On an empty input `self.characters.len() - 1` underflows and the
index panics: `none`. -/
def nth (st : LexState) (lookahead : Nat) : Option Char :=
  if st.characters.length = 0 then none
  else some (st.characters.getD (min (st.stop + lookahead) (st.characters.length - 1)) ' ')

/-- Rust `Lexer::whitespace`: skip a run of whitespace (`!eof` is checked
before `nth`, so the empty input is not a panic here). -/
def whitespace : Nat → LexState → Option LexState
  | 0, _ => none
  | fuel + 1, st =>
    if eof st then some st
    else
      match nth st 0 with
      | none => none
      | some c =>
          if c.isWhitespace then whitespace fuel (advance st).2 else some st

/-- Advance `n` times, discarding the characters (the loop inside
`Lexer::keyword`). -/
def advanceTimes : Nat → LexState → LexState
  | 0, st => st
  | n + 1, st => advanceTimes n (advance st).2

/-- Rust `Lexer::keyword`: match the characters from `end - 1` against the
literal; on success consume `len - 1` further characters. -/
def keyword (st : LexState) (kw : String) : Bool × LexState :=
  if st.stop - 1 + kw.length > st.characters.length then (false, st)
  else
    let slice := (st.characters.drop (st.stop - 1)).take kw.length
    if slice = kw.data then (true, advanceTimes (kw.length - 1) st)
    else (false, st)

/-- Rust `Lexer::lexeme`: `characters.get(begin..end)`, `none` on an invalid
range (the caller's `.expect` would panic). -/
def lexeme (st : LexState) : Option (List Char) :=
  if st.begin ≤ st.stop ∧ st.stop ≤ st.characters.length then
    some ((st.characters.drop st.begin).take (st.stop - st.begin))
  else none

/-- Rust `Lexer::position`. -/
def position (st : LexState) : Position :=
  ⟨st.line, st.startColumn, st.begin, st.stop⟩

/-- Digit run → value, `none` unless nonempty and all digits. -/
def digitsVal (cs : List Char) : Option Nat :=
  if cs ≠ [] ∧ cs.all Char.isDigit then
    some (cs.foldl (fun acc c => acc * 10 + (c.toNat - 48)) 0)
  else none

/-- Rust `lexeme.parse::<f64>()` on the lexemes `number()` can produce: an
integer part optionally followed by `.` and a fraction part.  Any other
lexeme (which the source's `expect("lexeme to be a number")` turns into a
panic) is `none`. -/
def parseF64 (cs : List Char) : Option F64 :=
  match cs.splitOn '.' with
  | [ds] => (digitsVal ds).map fun v => ⟨(v : Int), 0⟩
  | [ds, fs] =>
      match digitsVal ds with
      | none => none
      | some v =>
          if fs = [] then some ⟨(v : Int), 0⟩
          else (digitsVal fs).map fun f =>
            ⟨(v * 10 ^ fs.length + f : Int), fs.length⟩
  | _ => none

/-- The loop of `Lexer::number`.  Note the source bug kept faithfully:
`p` is read once before the loop and never updated, so the loop continues
while the *first* peeked character is a digit or dot; the per-iteration
`self.nth(0)` discards its result.  The dot bookkeeping (`found_dot`, the
"two decimal dots" error) is threaded as in the source. -/
def numberLoop : Nat → Char → Bool → LexState → Option LexState
  | 0, _, _, _ => none
  | fuel + 1, p, foundDot, st =>
    if eof st then some st
    else if p.isDigit || p = '.' then
      let st1 :=
        if p = '.' && foundDot then
          { st with errors := st.errors ++ ["this number has two decimal dots"] }
        else st
      let foundDot1 := if p = '.' then true else foundDot
      numberLoop fuel p foundDot1 (advance st1).2
    else some st

/-- Rust `Lexer::number`. -/
def number (fuel : Nat) (st : LexState) : Option (TokenKind × LexState) :=
  match nth st 0 with
  | none => none
  | some p =>
      match numberLoop fuel p false st with
      | none => none
      | some st1 =>
          match lexeme st1 with
          | none => none
          | some lx => (parseF64 lx).map fun n => (.LiteralNumber n, st1)

/-- The loop of `Lexer::name` (`p` is re-read each iteration here). -/
def nameLoop : Nat → LexState → Option LexState
  | 0, _ => none
  | fuel + 1, st =>
    match nth st 0 with
    | none => none
    | some p =>
        if !(eof st) && (p.isAlpha || p = '_') then nameLoop fuel (advance st).2
        else some st

/-- Rust `Lexer::name`. -/
def name (fuel : Nat) (st : LexState) : Option (TokenKind × LexState) :=
  match nameLoop fuel st with
  | none => none
  | some st1 =>
      match lexeme st1 with
      | none => none
      | some lx => some (.Name (String.mk lx), st1)

/-- The inner loop of `Lexer::comments`: skip to end of line. -/
def commentsInner : Nat → LexState → Option LexState
  | 0, _ => none
  | fuel + 1, st =>
    if eof st then some st
    else
      match nth st 0 with
      | none => none
      | some c =>
          if c ≠ '\n' then commentsInner fuel (advance st).2 else some st

/-- Rust `Lexer::comments`: the outer loop checks `nth(0) == '#'` with no eof
guard, so the empty input panics here (`none`), and a `'#'` as the last
character loops forever (fuel exhaustion, also `none`). -/
def comments : Nat → LexState → Option LexState
  | 0, _ => none
  | fuel + 1, st =>
    match nth st 0 with
    | none => none
    | some c =>
        if c = '#' then
          match commentsInner fuel (advance st).2 with
          | none => none
          | some st1 => comments fuel (advance st1).2
        else some st

/-- The fuel handed to the lexer loops by `nextToken`: ample for every
terminating run (each continuing loop iteration consumes a character). -/
def lexFuel (st : LexState) : Nat := st.characters.length * 4 + 16

/-- Build a token at the current position. -/
def mkTok (k : TokenKind) (st : LexState) : Option (Option Token × LexState) :=
  some (some ⟨k, position st⟩, st)

/-- The sequential keyword attempts of `next_token`'s dispatch: try each
literal in order on the state left by the previous attempt (`keyword`
leaves the state unchanged on a miss), yielding the first hit's token
kind. -/
def keywordChain : List (String × TokenKind) → LexState → Option TokenKind × LexState
  | [], st => (none, st)
  | (kw, k) :: rest, st =>
      if (keyword st kw).1 = true then (some k, (keyword st kw).2)
      else keywordChain rest (keyword st kw).2

/-- The tail of the dispatch after the `->` attempt: the remaining
single-character punctuation, then the keyword attempts `if, else, let,
def, true, false` (the source attempts neither `then` nor `in`), then
digits, then names, otherwise an `Error` token. -/
def dispatchRest (fuel : Nat) (c : Char) (st5 : LexState) :
    Option (Option Token × LexState) :=
  if c = '-' then mkTok .Minus st5 else
  if c = ':' then mkTok .Colon st5 else
  if c = ';' then mkTok .Semi st5 else
  if c = ',' then mkTok .Comma st5 else
  if c = '=' then mkTok .Equal st5 else
  if c = '(' then mkTok .ParenL st5 else
  if c = ')' then mkTok .ParenR st5 else
  if c = '{' then mkTok .CurlyL st5 else
  if c = '}' then mkTok .CurlyR st5 else
  match keywordChain [("if", .KeywordIf), ("else", .KeywordElse),
      ("let", .KeywordLet), ("def", .KeywordDef),
      ("true", .LiteralBool true), ("false", .LiteralBool false)] st5 with
  | (some k, st11) => mkTok k st11
  | (none, st11) =>
      if c.isDigit then
        match number fuel st11 with
        | none => none
        | some (k, st12) => mkTok k st12
      else if c.isAlpha then
        match name fuel st11 with
        | none => none
        | some (k, st12) => mkTok k st12
      else
        mkTok (.Error (.UnexpectedToken c)) { st11 with isOk := false }

/-- The dispatch on the consumed character inside `Lexer::next_token` —
`+` first, then the `->` lookahead (`keyword` is attempted for any
character; it can only match when the consumed character is `-`), then
the rest.  The Rust `let (matched, state)` bindings are rendered as the
`.1`/`.2` projections of `keyword`'s result.  The inner `Option` is the
source's `Option<Token>`; the outer `none` is a panic or divergence. -/
def dispatch (fuel : Nat) (c : Char) (st4 : LexState) :
    Option (Option Token × LexState) :=
  if c = '+' then mkTok .Plus st4 else
  if (keyword st4 "->").1 = true then mkTok .Arrow (keyword st4 "->").2 else
  dispatchRest fuel c (keyword st4 "->").2

/-- lexer.rs `Lexer::next_token`: skip whitespace and comments, stop at
eof, then consume a character and dispatch on it. -/
def nextToken (st : LexState) : Option (Option Token × LexState) :=
  match whitespace (lexFuel st) st with
  | none => none
  | some st1 =>
    match comments (lexFuel st) st1 with
    | none => none
    | some st2 =>
      if eof st2 then some (none, st2)
      else
        let st3 := { st2 with begin := st2.stop, startColumn := st2.column }
        match advance st3 with
        | (none, _) => none
        | (some c, st4) => dispatch (lexFuel st) c st4

/-- The loop of `Lexer::lex`. -/
def lexLoop : Nat → LexState → Option (List Token × LexState)
  | 0, _ => none
  | fuel + 1, st =>
    match nextToken st with
    | none => none
    | some (none, st1) => some ([], st1)
    | some (some t, st1) =>
        match lexLoop fuel st1 with
        | none => none
        | some (ts, st2) => some (t :: ts, st2)

/-- lexer.rs `Lexer::lex`: collect tokens, then append the `Eof`
terminator at the current position. -/
def lex (st : LexState) : Option (List Token) :=
  match lexLoop (st.characters.length + 2) st with
  | none => none
  | some (ts, st1) => some (ts ++ [⟨.Eof, position st1⟩])

end Lexer

/-- Lex a source string from a fresh lexer state. -/
def lexSFL (source : String) : Option (List Token) :=
  Lexer.lex (Lexer.init source)

/-! ## Lexer claims -/

/-- The abstract syntax of `1 + 2`, carrying the tokens the lexer
produces for that source. -/
def exprOnePlusTwo : Ast :=
  .BinaryOp ⟨.Plus, ⟨0, 2, 2, 3⟩⟩
    (.Literal ⟨.LiteralNumber ⟨1, 0⟩, ⟨0, 0, 0, 1⟩⟩)
    (.Literal ⟨.LiteralNumber ⟨2, 0⟩, ⟨0, 4, 4, 5⟩⟩)

/-- Claim C2: for the source `1 + 2` the lexer produces the numeric
literal 1, `Plus`, the numeric literal 2 and `Eof`; the type checker
assigns the expression the single numeric primitive type (`TypeFunc.Number`,
displayed `int`, the type the checker's `Int` names); and interpretation
evaluates it to 3. -/
theorem C2_one_plus_two :
    lexSFL "1 + 2" =
      some [⟨.LiteralNumber ⟨1, 0⟩, ⟨0, 0, 0, 1⟩⟩, ⟨.Plus, ⟨0, 2, 2, 3⟩⟩,
        ⟨.LiteralNumber ⟨2, 0⟩, ⟨0, 4, 4, 5⟩⟩, ⟨.Eof, ⟨0, 4, 4, 5⟩⟩]
    ∧ w 100 [] exprOnePlusTwo ⟨0, []⟩ =
      some (.ok ([("t1", .Application .Number),
        ("t0", .Application (.Func (.Application .Number) (.Application .Number)))],
        .Application .Number), ⟨2, []⟩)
    ∧ interpret 100 exprOnePlusTwo [] = some (.ok (.Number ⟨3, 0⟩), []) :=
  ⟨rfl, rfl, rfl⟩

/-- Claim C5, counterexample: the sources `then` and `in` begin with an
alphabetic character and name keywords of the claim's list, yet the lexer
emits `Name` tokens for both — lexer.rs attempts neither `then` nor `in`
(its guards try only `if, else, let, def, true, false`). -/
theorem C5_counterexample_then_in :
    (lexSFL "then").map (List.map Token.kind) = some [.Name "then", .Eof]
    ∧ (lexSFL "in").map (List.map Token.kind) = some [.Name "in", .Eof] :=
  ⟨rfl, rfl⟩

/-- Claim C10: on the empty source `Lexer::lex` panics instead of
returning `[Eof]`: `next_token` reaches `comments` before the eof check,
`comments` calls `nth(0)` unguarded, and with no characters
`self.characters.len() - 1` underflows, so the indexing panics (modelled
by `none`; in particular the result is not `some [eofToken]`). -/
theorem C10_empty_source_panics : lexSFL "" = none := rfl

/-! ## cst.rs -/

/-- cst.rs `enum TreeKind`, extended with the three kinds
(`Abstraction`, `Application`, `BinaryOp`) that ast_builder.rs matches:
the checked-in cst.rs belongs to the file/definition source variant while
ast_builder.rs belongs to the expression-core variant (see the file
header), so the embedding takes the union of the two kind sets. -/
inductive TreeKind where
  | ErrorTree | File | Expr | Definition | Params | Param | Call | Args | Arg
  | TypeExpr | Literal | Binary | If | Let | Name | Block | Statement
  | Abstraction | Application | BinaryOp
deriving DecidableEq, Repr

namespace Cst

mutual

/-- cst.rs `struct Tree` (namespaced `Cst.Tree`; Mathlib already has a
`Tree`). -/
inductive Tree where
  | mk (kind : TreeKind) (children : List Child) : Tree

/-- cst.rs `enum Child`. -/
inductive Child where
  | Token (t : Token) : Child
  | Tree (t : Tree) : Child

end

/-- The kind of a tree. -/
def Tree.kind : Tree → TreeKind
  | .mk k _ => k

/-- The children of a tree. -/
def Tree.children : Tree → List Child
  | .mk _ c => c

mutual

/-- In-order walk of a tree's token leaves. -/
def tokenWalk : Tree → List Token
  | .mk _ children => tokenWalkChildren children

/-- In-order walk of a child list's token leaves. -/
def tokenWalkChildren : List Child → List Token
  | [] => []
  | .Token t :: rest => t :: tokenWalkChildren rest
  | .Tree tr :: rest => tokenWalk tr ++ tokenWalkChildren rest

end

end Cst

/-! ## parser.rs -/

namespace Parser

/-- parser.rs `enum Event`. -/
inductive Event where
  | Open (kind : TreeKind) : Event
  | Close : Event
  | Advance : Event
deriving DecidableEq, Repr

/-- parser.rs `struct MarkOpened`. -/
structure MarkOpened where
  index : Nat
deriving DecidableEq, Repr

/-- parser.rs `struct MarkClosed`. -/
structure MarkClosed where
  index : Nat
deriving DecidableEq, Repr

/-- parser.rs `struct Parser` (the `source_path` is dropped; `Message`
errors are modelled by their message strings; the `Cell<u32>` fuel is an
ordinary threaded field). -/
structure PState where
  pos : Nat
  fuel : Nat
  events : List Event
  errors : List String
deriving DecidableEq, Repr

/-- Rust `Parser::from`: the fresh mutable state.  The `tokens` field of the
Rust struct is never written after construction, so it is passed to every
operation as a fixed argument `toks` instead of being threaded. -/
def init : PState := ⟨0, 256, [], []⟩

/-- Rust `Parser::eof`: `pos == tokens.len() - 1` (every run is on a lexer
output, which is nonempty, so the `usize` subtraction is exact). -/
def eofP (toks : List Token) (st : PState) : Bool := st.pos + 1 == toks.length

/-- Rust `Parser::open`: push an `Open(ErrorTree)` placeholder. -/
def openM (st : PState) : MarkOpened × PState :=
  (⟨st.events.length⟩, { st with events := st.events ++ [.Open .ErrorTree] })

/-- Rust `Parser::close`: overwrite the placeholder at `m.index` with
`Open(kind)` and push a `Close`. -/
def closeM (st : PState) (m : MarkOpened) (kind : TreeKind) : MarkClosed × PState :=
  (⟨m.index⟩, { st with events := (st.events.set m.index (.Open kind)) ++ [.Close] })

/-- Rust `Parser::open_before`: insert an `Open(ErrorTree)` at `m.index`,
shifting subsequent events right. -/
def openBefore (st : PState) (m : MarkClosed) : MarkOpened × PState :=
  (⟨m.index⟩, { st with events := st.events.insertIdx m.index (.Open .ErrorTree) })

/-- Rust `Parser::advance`: `assert!(!eof)` (panic → `none`), reset fuel,
push `Advance`, step `pos`. -/
def advanceP (toks : List Token) (st : PState) : Option PState :=
  if eofP toks st then none
  else some { st with fuel := 256, events := st.events ++ [.Advance], pos := st.pos + 1 }

/-- Rust `Parser::position`: the current token's position
(`.expect("token to be available")` panics on an out-of-range `pos`). -/
def positionP (toks : List Token) (st : PState) : Option Position :=
  (toks.get? st.pos).map Token.position

/-- Rust `Parser::nth`: panic at fuel 0, else burn one fuel and read the
token kind `lookahead` ahead (`Eof` past the end). -/
def nthP (toks : List Token) (st : PState) (lookahead : Nat) : Option (TokenKind × PState) :=
  if st.fuel = 0 then none
  else some (((toks.get? (st.pos + lookahead)).map Token.kind).getD .Eof,
    { st with fuel := st.fuel - 1 })

/-- Rust `std::mem::discriminant` on `TokenKind`. -/
def disc : TokenKind → Nat
  | .LiteralNumber _ => 0
  | .LiteralBool _ => 1
  | .Name _ => 2
  | .KeywordIf => 3
  | .KeywordElse => 4
  | .KeywordLet => 5
  | .KeywordThen => 6
  | .KeywordDef => 7
  | .Plus => 8
  | .Minus => 9
  | .ParenL => 10
  | .ParenR => 11
  | .CurlyL => 12
  | .CurlyR => 13
  | .Arrow => 14
  | .Colon => 15
  | .Equal => 16
  | .Comma => 17
  | .Semi => 18
  | .Eof => 19
  | .Error _ => 20

/-- Rust `Parser::at`: discriminant (payload-insensitive) comparison of the
current token kind. -/
def atP (toks : List Token) (st : PState) (kind : TokenKind) : Option (Bool × PState) :=
  (nthP toks st 0).map fun kst => (disc kst.1 == disc kind, kst.2)

/-- Rust `Parser::eat`. -/
def eatP (toks : List Token) (st : PState) (kind : TokenKind) : Option (Bool × PState) :=
  match atP toks st kind with
  | none => none
  | some (true, st1) => (advanceP toks st1).map fun st2 => (true, st2)
  | some (false, st1) => some (false, st1)

/-- Rust `Parser::expect`: eat, or record an "expected …" error at the current
position without advancing. -/
def expectP (toks : List Token) (st : PState) (kind : TokenKind) : Option PState :=
  match eatP toks st kind with
  | none => none
  | some (true, st1) => some st1
  | some (false, st1) =>
      match positionP toks st1 with
      | none => none
      | some _ => some { st1 with errors := st1.errors ++ ["expected " ++ kind.display] }

/-- Rust `Parser::advance_with_error`: wrap the current token in an
`ErrorTree` and record the message. -/
def advanceWithError (toks : List Token) (st : PState) (msg : String) : Option PState :=
  match positionP toks st with
  | none => none
  | some _ =>
      let (m, st1) := openM st
      let st2 := { st1 with errors := st1.errors ++ [msg] }
      match advanceP toks st2 with
      | none => none
      | some st3 => some (closeM st3 m .ErrorTree).2

/-- parser.rs `fn tightness` (the precedence table `[[Plus, Minus]]`). -/
def tightness (kind : TokenKind) : Option Nat :=
  if kind = .Plus ∨ kind = .Minus then some 0 else none

/-- parser.rs `fn right_binds_tighter`; `none` is the
`assert!(*left == Eof)` panic on a `left` that is neither in the table
nor `Eof` (unreachable from the grammar). -/
def rightBindsTighter (left right : TokenKind) : Option Bool :=
  match tightness right with
  | none => some false
  | some rt =>
      match tightness left with
      | some lt => some (decide (rt > lt))
      | none => if left = .Eof then some true else none

/-- parser.rs `fn name` (returns its `MarkClosed` in the source; every
caller discards it). -/
def nameG (toks : List Token) (st : PState) : Option PState :=
  let (m, st1) := openM st
  match advanceP toks st1 with
  | none => none
  | some st2 => some (closeM st2 m .Name).2

mutual

/-- parser.rs `fn file`: `file = def*` with error recovery on non-`def`
tokens. -/
def fileG (toks : List Token) : Nat → PState → Option PState
  | 0, _ => none
  | gas + 1, st =>
      let (m, st1) := openM st
      match fileLoop toks gas st1 with
      | none => none
      | some st2 => some (closeM st2 m .File).2

/-- The `while !p.eof()` loop of `file`. -/
def fileLoop (toks : List Token) : Nat → PState → Option PState
  | 0, _ => none
  | gas + 1, st =>
      if eofP toks st then some st
      else
        match atP toks st .KeywordDef with
        | none => none
        | some (true, st1) =>
            match defG toks gas st1 with
            | none => none
            | some st2 => fileLoop toks gas st2
        | some (false, st1) =>
            match advanceWithError toks st1 "expected a function" with
            | none => none
            | some st2 => fileLoop toks gas st2

/-- parser.rs `fn def`. -/
def defG (toks : List Token) : Nat → PState → Option PState
  | 0, _ => none
  | gas + 1, st =>
      match atP toks st .KeywordDef with
      | none => none
      | some (false, _) => none
      | some (true, st1) =>
          let (m, st2) := openM st1
          match expectP toks st2 .KeywordDef with
          | none => none
          | some st3 =>
              match nameG toks st3 with
              | none => none
              | some st4 =>
                  match atP toks st4 .ParenL with
                  | none => none
                  | some (isParen, st5) =>
                      match (if isParen then paramsG toks gas st5 else some st5) with
                      | none => none
                      | some st6 =>
                          match eatP toks st6 .Colon with
                          | none => none
                          | some (isColon, st7) =>
                              match (if isColon then typeExprG toks st7 else some st7) with
                              | none => none
                              | some st8 =>
                                  match eatP toks st8 .CurlyL with
                                  | none => none
                                  | some (false, st9) => some (closeM st9 m .Definition).2
                                  | some (true, st9) =>
                                      match statementG toks gas st9 with
                                      | none => none
                                      | some st10 =>
                                          match expectP toks st10 .CurlyR with
                                          | none => none
                                          | some st11 => some (closeM st11 m .Definition).2

/-- parser.rs `fn params`. -/
def paramsG (toks : List Token) : Nat → PState → Option PState
  | 0, _ => none
  | gas + 1, st =>
      match atP toks st .ParenL with
      | none => none
      | some (false, _) => none
      | some (true, st1) =>
          let (m, st2) := openM st1
          match expectP toks st2 .ParenL with
          | none => none
          | some st3 =>
              match paramsLoop toks gas st3 with
              | none => none
              | some st4 =>
                  match expectP toks st4 .ParenR with
                  | none => none
                  | some st5 => some (closeM st5 m .Params).2

/-- The `while !at(ParenR) && !eof` loop of `params`. -/
def paramsLoop (toks : List Token) : Nat → PState → Option PState
  | 0, _ => none
  | gas + 1, st =>
      match atP toks st .ParenR with
      | none => none
      | some (true, st1) => some st1
      | some (false, st1) =>
          if eofP toks st1 then some st1
          else
            match atP toks st1 (.Name "") with
            | none => none
            | some (false, st2) => some st2
            | some (true, st2) =>
                match paramG toks gas st2 with
                | none => none
                | some st3 => paramsLoop toks gas st3

/-- parser.rs `fn param`. -/
def paramG (toks : List Token) : Nat → PState → Option PState
  | 0, _ => none
  | gas + 1, st =>
      let (m, st1) := openM st
      match nameG toks st1 with
      | none => none
      | some st2 =>
          match expectP toks st2 .Colon with
          | none => none
          | some st3 =>
              match typeExprG toks st3 with
              | none => none
              | some st4 =>
                  match atP toks st4 .ParenR with
                  | none => none
                  | some (true, st5) => some (closeM st5 m .Param).2
                  | some (false, st5) =>
                      match expectP toks st5 .Comma with
                      | none => none
                      | some st6 => some (closeM st6 m .Param).2

/-- parser.rs `fn type_expr`. -/
def typeExprG (toks : List Token) (st : PState) : Option PState :=
  let (m, st1) := openM st
  match nameG toks st1 with
  | none => none
  | some st2 => some (closeM st2 m .TypeExpr).2

/-- parser.rs `fn statement`. -/
def statementG (toks : List Token) : Nat → PState → Option PState
  | 0, _ => none
  | gas + 1, st =>
      match expressionG toks gas st with
      | none => none
      | some (lhs, st1) => statementLoop toks gas lhs st1

/-- The `while at(Semi)` loop of `statement` (note: the source never
advances over the `Semi` here; the next `expression` consumes it inside
an `ErrorTree`). -/
def statementLoop (toks : List Token) : Nat → MarkClosed → PState → Option PState
  | 0, _, _ => none
  | gas + 1, lhs, st =>
      match atP toks st .Semi with
      | none => none
      | some (false, st1) => some st1
      | some (true, st1) =>
          let (m, st2) := openBefore st1 lhs
          let st3 := (closeM st2 m .Statement).2
          match expressionG toks gas st3 with
          | none => none
          | some (lhs1, st4) => statementLoop toks gas lhs1 st4

/-- parser.rs `fn expression`: `expr_rec(p, Eof)`. -/
def expressionG (toks : List Token) : Nat → PState → Option (MarkClosed × PState)
  | 0, _ => none
  | gas + 1, st => exprRecG toks gas .Eof st

/-- parser.rs `fn expr_rec`. -/
def exprRecG (toks : List Token) : Nat → TokenKind → PState → Option (MarkClosed × PState)
  | 0, _, _ => none
  | gas + 1, left, st =>
      match exprDelimitedG toks gas st with
      | none => none
      | some (lhs, st1) =>
          match callLoop toks gas lhs st1 with
          | none => none
          | some (lhs1, st2) => binaryLoop toks gas left lhs1 st2

/-- The `while p.at(ParenL)` call loop of `expr_rec`. -/
def callLoop (toks : List Token) : Nat → MarkClosed → PState → Option (MarkClosed × PState)
  | 0, _, _ => none
  | gas + 1, lhs, st =>
      match atP toks st .ParenL with
      | none => none
      | some (false, st1) => some (lhs, st1)
      | some (true, st1) =>
          let (m, st2) := openBefore st1 lhs
          match argListG toks gas st2 with
          | none => none
          | some st3 =>
              let (lhs1, st4) := closeM st3 m .Call
              callLoop toks gas lhs1 st4

/-- The Pratt loop of `expr_rec`. -/
def binaryLoop (toks : List Token) : Nat → TokenKind → MarkClosed → PState → Option (MarkClosed × PState)
  | 0, _, _, _ => none
  | gas + 1, left, lhs, st =>
      match nthP toks st 0 with
      | none => none
      | some (right, st1) =>
          match rightBindsTighter left right with
          | none => none
          | some false => some (lhs, st1)
          | some true =>
              let (m, st2) := openBefore st1 lhs
              match advanceP toks st2 with
              | none => none
              | some st3 =>
                  match exprRecG toks gas right st3 with
                  | none => none
                  | some (_, st4) =>
                      let (lhs1, st5) := closeM st4 m .Binary
                      binaryLoop toks gas left lhs1 st5

/-- parser.rs `fn arg_list`. -/
def argListG (toks : List Token) : Nat → PState → Option PState
  | 0, _ => none
  | gas + 1, st =>
      match atP toks st .ParenL with
      | none => none
      | some (false, _) => none
      | some (true, st1) =>
          let (m, st2) := openM st1
          match expectP toks st2 .ParenL with
          | none => none
          | some st3 =>
              match argLoop toks gas st3 with
              | none => none
              | some st4 =>
                  match expectP toks st4 .ParenR with
                  | none => none
                  | some st5 => some (closeM st5 m .Args).2

/-- The `while !at(ParenR) && !eof` loop of `arg_list`. -/
def argLoop (toks : List Token) : Nat → PState → Option PState
  | 0, _ => none
  | gas + 1, st =>
      match atP toks st .ParenR with
      | none => none
      | some (true, st1) => some st1
      | some (false, st1) =>
          if eofP toks st1 then some st1
          else
            match argG toks gas st1 with
            | none => none
            | some st2 => argLoop toks gas st2

/-- parser.rs `fn arg`. -/
def argG (toks : List Token) : Nat → PState → Option PState
  | 0, _ => none
  | gas + 1, st =>
      let (m, st1) := openM st
      match expressionG toks gas st1 with
      | none => none
      | some (_, st2) =>
          match atP toks st2 .ParenR with
          | none => none
          | some (true, st3) => some (closeM st3 m .Arg).2
          | some (false, st3) =>
              match expectP toks st3 .Comma with
              | none => none
              | some st4 => some (closeM st4 m .Arg).2

/-- parser.rs `fn expr_delimited`. -/
def exprDelimitedG (toks : List Token) : Nat → PState → Option (MarkClosed × PState)
  | 0, _ => none
  | gas + 1, st =>
      let (m, st1) := openM st
      match nthP toks st1 0 with
      | none => none
      | some (k, st2) =>
          match k with
          | .LiteralNumber _ =>
              match advanceP toks st2 with
              | none => none
              | some st3 => some (closeM st3 m .Literal)
          | .LiteralBool _ =>
              match advanceP toks st2 with
              | none => none
              | some st3 => some (closeM st3 m .Literal)
          | .Name _ =>
              match advanceP toks st2 with
              | none => none
              | some st3 => some (closeM st3 m .Name)
          | .CurlyL =>
              match expectP toks st2 .CurlyL with
              | none => none
              | some st3 =>
                  match statementG toks gas st3 with
                  | none => none
                  | some st4 =>
                      match expectP toks st4 .CurlyR with
                      | none => none
                      | some st5 => some (closeM st5 m .Block)
          | .ParenL =>
              match expectP toks st2 .ParenL with
              | none => none
              | some st3 =>
                  match expressionG toks gas st3 with
                  | none => none
                  | some (_, st4) =>
                      match expectP toks st4 .ParenR with
                      | none => none
                      | some st5 => some (closeM st5 m .Expr)
          | _ =>
              if eofP toks st2 then some (closeM st2 m .ErrorTree)
              else
                match advanceP toks st2 with
                | none => none
                | some st3 => some (closeM st3 m .ErrorTree)

end

end Parser

namespace Parser

/-- The reduction loop of `Parser::build_tree`: `Open` pushes an empty
tree, `Advance` appends the next token to the top of the stack, `Close`
pops and appends as a child; the stack's head is its top.  `none` models
the `unwrap` panics (empty stack, exhausted token iterator). -/
def reduce : List Event → List Cst.Tree → List Token →
    Option (List Cst.Tree × List Token)
  | [], stack, toks => some (stack, toks)
  | .Open k :: es, stack, toks => reduce es (.mk k [] :: stack) toks
  | .Close :: es, stack, toks =>
      match stack with
      | top :: next :: rest =>
          reduce es (.mk next.kind (next.children ++ [.Tree top]) :: rest) toks
      | _ => none
  | .Advance :: es, stack, toks =>
      match stack, toks with
      | top :: rest, t :: ts =>
          reduce es (.mk top.kind (top.children ++ [.Token t]) :: rest) ts
      | _, _ => none

/-- parser.rs `Parser::build_tree`: pop the final `Close` (asserted),
reduce the remaining events against a stack, and assert that exactly one
tree remains and that the next unconsumed token is `Eof`. -/
def buildTree (toks : List Token) (st : PState) : Option Cst.Tree :=
  match st.events.getLast? with
  | some .Close =>
      match reduce st.events.dropLast [] toks with
      | some ([tree], rest) =>
          match rest with
          | t :: _ => if t.kind = .Eof then some tree else none
          | [] => none
      | _ => none
  | _ => none

/-- parser.rs `Parser::parse`: run `file`, then materialize the event
buffer. -/
def parse (toks : List Token) (gas : Nat) : Option Cst.Tree :=
  match fileG toks gas init with
  | none => none
  | some st1 => buildTree toks st1

end Parser

/-- Parse a token list from a fresh parser state. -/
def parseSFL (gas : Nat) (toks : List Token) : Option Cst.Tree :=
  Parser.parse toks gas

/-! ## Claim C8: CST fidelity -/

/-- Walking a concatenation of child lists. -/
theorem tokenWalkChildren_append (cs1 cs2 : List Cst.Child) :
    Cst.tokenWalkChildren (cs1 ++ cs2) =
      Cst.tokenWalkChildren cs1 ++ Cst.tokenWalkChildren cs2 := by
  induction cs1 with
  | nil => simp [Cst.tokenWalkChildren]
  | cons c rest ih =>
      cases c with
      | Token t => simp [Cst.tokenWalkChildren, ih]
      | Tree tr => simp [Cst.tokenWalkChildren, ih]

/-- Concatenated walk of a reduction stack, bottom of the stack first
(the stack's head is its top). -/
def stackWalk : List Cst.Tree → List Token
  | [] => []
  | t :: rest => stackWalk rest ++ Cst.tokenWalk t

/-- Invariant of the event reduction: a successful `reduce` consumes a
prefix of the tokens, and the concatenated walk of the resulting stack
extends the walk of the initial stack by exactly that prefix — every
consumed token lands in the trees, in order. -/
theorem reduce_walk :
    ∀ (es : List Parser.Event) (stack : List Cst.Tree) (toks : List Token)
      (stack' : List Cst.Tree) (toks' : List Token),
      Parser.reduce es stack toks = some (stack', toks') →
      ∃ n, toks' = toks.drop n ∧ stackWalk stack' = stackWalk stack ++ toks.take n := by
  intro es
  induction es with
  | nil =>
      intro stack toks stack' toks' h
      simp only [Parser.reduce, Option.some.injEq, Prod.mk.injEq] at h
      exact ⟨0, by simp [h.2.symm], by simp [h.1.symm]⟩
  | cons ev rest ih =>
      intro stack toks stack' toks' h
      cases ev with
      | Open k =>
          simp only [Parser.reduce] at h
          obtain ⟨n, h1, h2⟩ := ih _ _ _ _ h
          refine ⟨n, h1, ?_⟩
          rw [h2]
          simp [stackWalk, Cst.tokenWalk, Cst.tokenWalkChildren]
      | Close =>
          simp only [Parser.reduce] at h
          cases stack with
          | nil => simp at h
          | cons top stack1 =>
              cases stack1 with
              | nil => simp at h
              | cons next rest2 =>
                  obtain ⟨n, h1, h2⟩ := ih _ _ _ _ h
                  refine ⟨n, h1, ?_⟩
                  rw [h2]
                  obtain ⟨nk, nc⟩ := next
                  simp [stackWalk, Cst.tokenWalk, Cst.Tree.kind, Cst.Tree.children,
                    tokenWalkChildren_append, Cst.tokenWalkChildren, List.append_assoc]
      | Advance =>
          simp only [Parser.reduce] at h
          cases stack with
          | nil => simp at h
          | cons top rest2 =>
              cases toks with
              | nil => simp at h
              | cons t ts =>
                  obtain ⟨n, h1, h2⟩ := ih _ _ _ _ h
                  refine ⟨n + 1, by simpa using h1, ?_⟩
                  rw [h2]
                  obtain ⟨tk, tc⟩ := top
                  simp [stackWalk, Cst.tokenWalk, Cst.Tree.kind, Cst.Tree.children,
                    tokenWalkChildren_append, Cst.tokenWalkChildren, List.append_assoc]

/-- Taking `head?` after `drop` is `get?`. -/
theorem head_drop_get {α : Type} : ∀ (n : Nat) (l : List α), (l.drop n).head? = l.get? n := by
  intro n
  induction n with
  | zero => intro l; cases l <;> rfl
  | succ m ih => intro l; cases l with
      | nil => rfl
      | cons a l => simpa using ih l

/-- A successful `build_tree` pins the tree's token walk: it is exactly
the prefix of the tokens consumed by `Advance` events, and the next
unconsumed token is the `Eof` terminator. -/
theorem buildTree_walk (toks : List Token) (st : Parser.PState) (tree : Cst.Tree)
    (h : Parser.buildTree toks st = some tree) :
    ∃ n, Cst.tokenWalk tree = toks.take n ∧ (toks.get? n).map Token.kind = some .Eof := by
  simp only [Parser.buildTree] at h
  cases hl : st.events.getLast? with
  | none => rw [hl] at h; simp at h
  | some ev =>
      rw [hl] at h
      cases ev with
      | Open k => simp at h
      | Advance => simp at h
      | Close =>
          simp only [] at h
          cases hr : Parser.reduce st.events.dropLast [] toks with
          | none => rw [hr] at h; simp at h
          | some p =>
              obtain ⟨stack', rest⟩ := p
              rw [hr] at h
              obtain ⟨n, h1, h2⟩ := reduce_walk _ _ _ _ _ hr
              cases stack' with
              | nil => simp at h
              | cons tr stack1 =>
                  cases stack1 with
                  | cons _ _ => simp at h
                  | nil =>
                      cases rest with
                      | nil => simp at h
                      | cons t ts =>
                          simp only [] at h
                          by_cases he : t.kind = .Eof
                          · rw [if_pos he] at h
                            have htr : tr = tree := by simpa using h
                            subst htr
                            refine ⟨n, ?_, ?_⟩
                            · have h3 : stackWalk [tr] = Cst.tokenWalk tr := by
                                simp [stackWalk]
                              rw [h3] at h2
                              simpa using h2
                            · have hh : (toks.drop n).head? = some t := by
                                rw [← h1]; rfl
                              rw [head_drop_get] at hh
                              rw [hh]
                              simp [he]
                          · rw [if_neg he] at h; simp at h

/-- Rust `Lexer::number` only produces numeric literal kinds. -/
theorem Lexer.number_kind (fuel : Nat) (st : Lexer.LexState) (k : TokenKind)
    (st' : Lexer.LexState) (h : Lexer.number fuel st = some (k, st')) :
    ∃ n, k = .LiteralNumber n := by
  simp only [Lexer.number] at h
  cases hn : Lexer.nth st 0 with
  | none => rw [hn] at h; simp at h
  | some p =>
      rw [hn] at h
      simp only [] at h
      cases hl : Lexer.numberLoop fuel p false st with
      | none => rw [hl] at h; simp at h
      | some st1 =>
          rw [hl] at h
          simp only [] at h
          cases hx : Lexer.lexeme st1 with
          | none => rw [hx] at h; simp at h
          | some lx =>
              rw [hx] at h
              simp only [] at h
              cases hp : Lexer.parseF64 lx with
              | none => rw [hp] at h; simp at h
              | some n =>
                  rw [hp] at h
                  simp at h
                  exact ⟨n, h.1.symm⟩

/-- Rust `Lexer::name` only produces `Name` kinds. -/
theorem Lexer.name_kind (fuel : Nat) (st : Lexer.LexState) (k : TokenKind)
    (st' : Lexer.LexState) (h : Lexer.name fuel st = some (k, st')) :
    ∃ s, k = .Name s := by
  unfold Lexer.name at h
  cases hl : Lexer.nameLoop fuel st with
  | none => rw [hl] at h; simp at h
  | some st1 =>
      rw [hl] at h
      simp only [] at h
      cases hx : Lexer.lexeme st1 with
      | none => rw [hx] at h; simp at h
      | some lx =>
          rw [hx] at h
          simp only [Option.some.injEq, Prod.mk.injEq] at h
          exact ⟨String.mk lx, h.1.symm⟩

/-- Rust `Lexer::mkTok` yields a token of exactly the given kind. -/
theorem Lexer.mkTok_ne_eof (k : TokenKind) (st : Lexer.LexState) (tok : Token)
    (st' : Lexer.LexState) (hk : k ≠ .Eof)
    (h : Lexer.mkTok k st = some (some tok, st')) : tok.kind ≠ .Eof := by
  simp only [Lexer.mkTok, Option.some.injEq, Prod.mk.injEq] at h
  rw [← h.1]
  exact hk

/-- A keyword chain over kinds other than `Eof` yields a kind other than
`Eof`. -/
theorem Lexer.keywordChain_ne_eof :
    ∀ (l : List (String × TokenKind)) (st : Lexer.LexState) (k : TokenKind)
      (st' : Lexer.LexState), (∀ p ∈ l, p.2 ≠ .Eof) →
      Lexer.keywordChain l st = (some k, st') → k ≠ .Eof := by
  intro l
  induction l with
  | nil => intro st k st' _ h; simp [Lexer.keywordChain] at h
  | cons p rest ih =>
      intro st k st' hall h
      obtain ⟨kw, kd⟩ := p
      simp only [Lexer.keywordChain] at h
      by_cases hm : (Lexer.keyword st kw).1 = true
      · rw [if_pos hm] at h
        simp only [Prod.mk.injEq, Option.some.injEq] at h
        rw [← h.1]
        exact hall (kw, kd) (by simp)
      · rw [if_neg hm] at h
        exact ih _ k st' (fun q hq => hall q (by simp [hq])) h

/-- Every token the tail of the dispatch emits has a kind other than
`Eof`. -/
theorem Lexer.dispatchRest_ne_eof (fuel : Nat) (c : Char) (st5 : Lexer.LexState)
    (tok : Token) (st' : Lexer.LexState)
    (h : Lexer.dispatchRest fuel c st5 = some (some tok, st')) :
    tok.kind ≠ .Eof := by
  unfold Lexer.dispatchRest at h
  by_cases b1 : c = '-'
  case pos => rw [if_pos b1] at h; exact Lexer.mkTok_ne_eof .Minus _ _ _ (by simp) h
  rw [if_neg b1] at h
  by_cases b2 : c = ':'
  case pos => rw [if_pos b2] at h; exact Lexer.mkTok_ne_eof .Colon _ _ _ (by simp) h
  rw [if_neg b2] at h
  by_cases b3 : c = ';'
  case pos => rw [if_pos b3] at h; exact Lexer.mkTok_ne_eof .Semi _ _ _ (by simp) h
  rw [if_neg b3] at h
  by_cases b4 : c = ','
  case pos => rw [if_pos b4] at h; exact Lexer.mkTok_ne_eof .Comma _ _ _ (by simp) h
  rw [if_neg b4] at h
  by_cases b5 : c = '='
  case pos => rw [if_pos b5] at h; exact Lexer.mkTok_ne_eof .Equal _ _ _ (by simp) h
  rw [if_neg b5] at h
  by_cases b6 : c = '('
  case pos => rw [if_pos b6] at h; exact Lexer.mkTok_ne_eof .ParenL _ _ _ (by simp) h
  rw [if_neg b6] at h
  by_cases b7 : c = ')'
  case pos => rw [if_pos b7] at h; exact Lexer.mkTok_ne_eof .ParenR _ _ _ (by simp) h
  rw [if_neg b7] at h
  by_cases b8 : c = '{'
  case pos => rw [if_pos b8] at h; exact Lexer.mkTok_ne_eof .CurlyL _ _ _ (by simp) h
  rw [if_neg b8] at h
  by_cases b9 : c = '}'
  case pos => rw [if_pos b9] at h; exact Lexer.mkTok_ne_eof .CurlyR _ _ _ (by simp) h
  rw [if_neg b9] at h
  cases hkc : Lexer.keywordChain [("if", .KeywordIf), ("else", .KeywordElse),
      ("let", .KeywordLet), ("def", .KeywordDef),
      ("true", .LiteralBool true), ("false", .LiteralBool false)] st5 with
  | mk ok st11 =>
      rw [hkc] at h
      cases ok with
      | some k =>
          simp only [] at h
          exact Lexer.mkTok_ne_eof k _ _ _
            (Lexer.keywordChain_ne_eof _ _ _ _ (by simp) hkc) h
      | none =>
          simp only [] at h
          by_cases bd : c.isDigit = true
          · rw [if_pos bd] at h
            cases hn : Lexer.number fuel st11 with
            | none => rw [hn] at h; simp at h
            | some p =>
                obtain ⟨k, st12⟩ := p
                rw [hn] at h
                simp only [] at h
                obtain ⟨nval, rfl⟩ := Lexer.number_kind _ _ _ _ hn
                exact Lexer.mkTok_ne_eof _ _ _ _ (by simp) h
          · rw [if_neg bd] at h
            by_cases ba : c.isAlpha = true
            · rw [if_pos ba] at h
              cases hn : Lexer.name fuel st11 with
              | none => rw [hn] at h; simp at h
              | some p =>
                  obtain ⟨k, st12⟩ := p
                  rw [hn] at h
                  simp only [] at h
                  obtain ⟨sval, rfl⟩ := Lexer.name_kind _ _ _ _ hn
                  exact Lexer.mkTok_ne_eof _ _ _ _ (by simp) h
            · rw [if_neg ba] at h
              exact Lexer.mkTok_ne_eof _ _ _ _ (by simp) h

/-- Every token the character dispatch of `next_token` emits has a kind
other than `Eof` (the `Eof` terminator is appended only by `lex`
itself). -/
theorem Lexer.dispatch_ne_eof (fuel : Nat) (c : Char) (st4 : Lexer.LexState)
    (tok : Token) (st' : Lexer.LexState)
    (h : Lexer.dispatch fuel c st4 = some (some tok, st')) :
    tok.kind ≠ .Eof := by
  unfold Lexer.dispatch at h
  by_cases b1 : c = '+'
  case pos => rw [if_pos b1] at h; exact Lexer.mkTok_ne_eof .Plus _ _ _ (by simp) h
  rw [if_neg b1] at h
  by_cases b2 : (Lexer.keyword st4 "->").1 = true
  case pos => rw [if_pos b2] at h; exact Lexer.mkTok_ne_eof .Arrow _ _ _ (by simp) h
  rw [if_neg b2] at h
  exact Lexer.dispatchRest_ne_eof _ _ _ _ _ h

/-- Every token `next_token` emits has a kind other than `Eof`. -/
theorem Lexer.nextToken_ne_eof (st : Lexer.LexState) (tok : Token)
    (st' : Lexer.LexState) (h : Lexer.nextToken st = some (some tok, st')) :
    tok.kind ≠ .Eof := by
  unfold Lexer.nextToken at h
  cases hw : Lexer.whitespace (Lexer.lexFuel st) st with
  | none => rw [hw] at h; simp at h
  | some st1 =>
      rw [hw] at h
      simp only [] at h
      cases hc : Lexer.comments (Lexer.lexFuel st) st1 with
      | none => rw [hc] at h; simp at h
      | some st2 =>
          rw [hc] at h
          simp only [] at h
          by_cases he : Lexer.eof st2 = true
          · rw [if_pos he] at h; simp at h
          · rw [if_neg he] at h
            cases ha : Lexer.advance { st2 with begin := st2.stop, startColumn := st2.column } with
            | mk oc st4 =>
                rw [ha] at h
                cases oc with
                | none => simp at h
                | some c =>
                    simp only [] at h
                    exact Lexer.dispatch_ne_eof _ _ _ _ _ h

/-- Tokens collected by the `lex` loop all have kinds other than `Eof`. -/
theorem Lexer.lexLoop_ne_eof :
    ∀ (fuel : Nat) (st : Lexer.LexState) (ts : List Token) (st' : Lexer.LexState),
      Lexer.lexLoop fuel st = some (ts, st') → ∀ t ∈ ts, t.kind ≠ .Eof := by
  intro fuel
  induction fuel with
  | zero => intro st ts st' h; simp [Lexer.lexLoop] at h
  | succ f ih =>
      intro st ts st' h
      simp only [Lexer.lexLoop] at h
      cases hn : Lexer.nextToken st with
      | none => rw [hn] at h; simp at h
      | some p =>
          obtain ⟨ot, st1⟩ := p
          rw [hn] at h
          cases ot with
          | none =>
              simp only [Option.some.injEq, Prod.mk.injEq] at h
              rw [← h.1]
              intro t ht
              simp at ht
          | some tok =>
              simp only [] at h
              cases hl : Lexer.lexLoop f st1 with
              | none => rw [hl] at h; simp at h
              | some q =>
                  obtain ⟨ts1, st2⟩ := q
                  rw [hl] at h
                  simp only [Option.some.injEq, Prod.mk.injEq] at h
                  rw [← h.1]
                  intro t ht
                  rcases List.mem_cons.mp ht with rfl | hmem
                  · exact Lexer.nextToken_ne_eof st t st1 hn
                  · exact ih st1 ts1 st2 hl t hmem

/-- Structure of every lexer output: the collected tokens (none of kind
`Eof`) followed by exactly one `Eof` terminator. -/
theorem lexSFL_structure (src : String) (toks : List Token)
    (h : lexSFL src = some toks) :
    ∃ body eTok, toks = body ++ [eTok] ∧ eTok.kind = .Eof ∧
      ∀ t ∈ body, t.kind ≠ .Eof := by
  simp only [lexSFL, Lexer.lex] at h
  cases hl : Lexer.lexLoop ((Lexer.init src).characters.length + 2) (Lexer.init src) with
  | none => rw [hl] at h; simp at h
  | some p =>
      obtain ⟨ts, st1⟩ := p
      rw [hl] at h
      simp only [Option.some.injEq] at h
      exact ⟨ts, ⟨.Eof, Lexer.position st1⟩, h.symm, rfl,
        Lexer.lexLoop_ne_eof _ _ _ _ hl⟩

/-- Claim C8, amended: for every token sequence produced by the lexer, an
in-order walk of the token leaves of the CST built by the parser equals
the token sequence the parser consumed — the lexer output with the `Eof`
terminator removed, no token lost and none reordered (`ErrorTree` nodes
mark skipped ranges but keep their tokens). -/
theorem C8_amended_cst_fidelity (src : String) (toks : List Token) (gas : Nat)
    (tree : Cst.Tree) (hlex : lexSFL src = some toks)
    (hparse : parseSFL gas toks = some tree) :
    Cst.tokenWalk tree = toks.dropLast := by
  simp only [parseSFL, Parser.parse] at hparse
  cases hf : Parser.fileG toks gas Parser.init with
  | none => rw [hf] at hparse; simp at hparse
  | some st1 =>
      rw [hf] at hparse
      simp only [] at hparse
      obtain ⟨n, hwalk, heof⟩ := buildTree_walk toks st1 tree hparse
      obtain ⟨body, eTok, rfl, heq, hbody⟩ := lexSFL_structure src toks hlex
      have hn : n = body.length := by
        rcases Nat.lt_trichotomy n body.length with hlt | he | hgt
        · exfalso
          rw [List.get?_append hlt] at heof
          cases hb : body.get? n with
          | none => rw [hb] at heof; simp at heof
          | some t =>
              rw [hb] at heof
              simp at heof
              exact hbody t (List.get?_mem hb) heof
        · exact he
        · exfalso
          have hlen : (body ++ [eTok]).length ≤ n := by
            simp
            omega
          rw [List.get?_eq_none.mpr hlen] at heof
          simp at heof
      subst hn
      rw [hwalk]
      rw [List.take_left, List.dropLast_concat]

/-- The token list the lexer produces for the source `1`. -/
def toksOne : List Token :=
  [⟨.LiteralNumber ⟨1, 0⟩, ⟨0, 0, 0, 1⟩⟩, ⟨.Eof, ⟨0, 0, 0, 1⟩⟩]

/-- The CST the parser produces for those tokens: a `File` holding an
`ErrorTree` around the non-`def` token. -/
def treeOne : Cst.Tree :=
  .mk .File [.Tree (.mk .ErrorTree [.Token ⟨.LiteralNumber ⟨1, 0⟩, ⟨0, 0, 0, 1⟩⟩])]

/-- Witness for C8 (amended): on the lexer output for `1`, the CST's
token walk is the consumed token sequence, the lexer output minus its
`Eof` terminator. -/
theorem C8_witness :
    Cst.tokenWalk treeOne = toksOne.dropLast :=
  C8_amended_cst_fidelity "1" toksOne 1000 treeOne rfl rfl

/-- Claim C8, counterexample to the claim as stated: the walk is *not*
equal to the full lexer output — the `Eof` terminator is never consumed
by the parser and has no leaf in the tree. -/
theorem C8_counterexample_eof_leaf :
    lexSFL "1" = some toksOne
    ∧ parseSFL 1000 toksOne = some treeOne
    ∧ Cst.tokenWalk treeOne = [⟨.LiteralNumber ⟨1, 0⟩, ⟨0, 0, 0, 1⟩⟩]
    ∧ Cst.tokenWalk treeOne ≠ toksOne :=
  ⟨rfl, rfl, rfl, by decide⟩

/-! ## ast_builder.rs

`build` lowers a CST to an AST.  The checked-in ast_builder.rs belongs to
the expression-core variant: it matches the kinds `ErrorTree, Expr,
Abstraction, Application, Let, Name, Literal, BinaryOp, If` and no others
(the file-variant kinds of cst.rs have no arm; applying `build` to them
has no defined behaviour in any variant and is modelled as `none`, like
the `If => todo!()` panic).  Positional child extraction `children[i]`
panics when the index is out of bounds (`none`); a child of the wrong
flavour at the inspected position yields `Ast::Err` exactly as the
`let … else return Err` bindings do, in the source's evaluation order. -/

/-- ast_builder.rs `fn build`. -/
def build : Cst.Tree → Option Ast
  | .mk .ErrorTree _ => some .Err
  | .mk .Expr cs =>
      match cs with
      | _ :: .Tree t1 :: _ => (build t1).map .Expr
      | _ :: .Token _ :: _ => some .Err
      | _ => none
  | .mk .Abstraction cs =>
      match cs with
      | _ :: .Token _ :: _ => some .Err
      | _ :: .Tree n :: rest =>
          match n with
          | .mk _ [] => none
          | .mk _ (.Tree _ :: _) => some .Err
          | .mk _ (.Token tkn :: _) =>
              match rest with
              | _ :: .Tree e :: _ => (build e).map (.Abstraction tkn)
              | _ :: .Token _ :: _ => some .Err
              | _ => none
      | _ => none
  | .mk .Application cs =>
      match cs with
      | .Token _ :: _ => some .Err
      | .Tree e1 :: rest =>
          match rest with
          | .Token _ :: _ => some .Err
          | .Tree e2 :: _ =>
              match build e1, build e2 with
              | some a1, some a2 => some (.Application a1 a2)
              | _, _ => none
          | [] => none
      | [] => none
  | .mk .Let cs =>
      match cs with
      | _ :: .Token _ :: _ => some .Err
      | _ :: .Tree n :: rest =>
          match n with
          | .mk _ [] => none
          | .mk _ (.Tree _ :: _) => some .Err
          | .mk _ (.Token tkn :: _) =>
              match rest with
              | _ :: .Token _ :: _ => some .Err
              | _ :: .Tree e1 :: rest2 =>
                  match rest2 with
                  | _ :: .Token _ :: _ => some .Err
                  | _ :: .Tree e2 :: _ =>
                      match build e1, build e2 with
                      | some a1, some a2 => some (.Let tkn a1 a2)
                      | _, _ => none
                  | _ => none
              | _ => none
      | _ => none
  | .mk .Name cs =>
      match cs with
      | .Token v :: _ => some (.Name v)
      | .Tree _ :: _ => some .Err
      | [] => none
  | .mk .Literal cs =>
      match cs with
      | .Token v :: _ => some (.Literal v)
      | .Tree _ :: _ => some .Err
      | [] => none
  | .mk .BinaryOp cs =>
      match cs with
      | .Token _ :: _ => some .Err
      | .Tree e1 :: rest =>
          match rest with
          | .Tree _ :: _ => some .Err
          | .Token op :: rest2 =>
              match rest2 with
              | .Token _ :: _ => some .Err
              | .Tree e2 :: _ =>
                  match build e1, build e2 with
                  | some a1, some a2 => some (.BinaryOp op a1 a2)
                  | _, _ => none
              | [] => none
          | [] => none
      | [] => none
  | .mk .If _ => none
  | .mk _ _ => none

/-- Whether an AST node is an `Expr` wrapper. -/
def Ast.isExpr : Ast → Bool
  | .Expr _ => true
  | _ => false

/-- The CST of the parenthesized expression `(1)`: an `Expr` node with
children `(` , `Literal(1)` , `)`. -/
def treeParenOne : Cst.Tree :=
  .mk .Expr [.Token ⟨.ParenL, ⟨0, 0, 0, 1⟩⟩,
    .Tree (.mk .Literal [.Token ⟨.LiteralNumber ⟨1, 0⟩, ⟨0, 1, 1, 2⟩⟩]),
    .Token ⟨.ParenR, ⟨0, 2, 2, 3⟩⟩]

/-- Claim C6, counterexample: lowering the parenthesized expression `(1)`
does *not* collapse it to its inner expression — the root of the result
is an `Ast::Expr` wrapper around the inner literal. -/
theorem C6_counterexample_expr_wrapper :
    build treeParenOne =
      some (.Expr (.Literal ⟨.LiteralNumber ⟨1, 0⟩, ⟨0, 1, 1, 2⟩⟩))
    ∧ (build treeParenOne).map Ast.isExpr = some true
    ∧ build treeParenOne ≠
      some (.Literal ⟨.LiteralNumber ⟨1, 0⟩, ⟨0, 1, 1, 2⟩⟩) := by
  refine ⟨?_, ?_, ?_⟩ <;> simp [build, treeParenOne, Ast.isExpr]

/-- Claim C6, amended: AST lowering maps a parenthesized `Expr` node to
`Ast::Expr` wrapping the expression built from its child at index 1 (the
wrapper is retained at the root, not collapsed), and yields `Ast::Err`
when that position holds a token instead of a subtree (an ill-formed
`Expr`). -/
theorem C6_amended_expr_arm (c0 : Cst.Child) (t : Cst.Tree)
    (rest : List Cst.Child) (tk : Token) :
    build (.mk .Expr (c0 :: .Tree t :: rest)) = (build t).map .Expr
    ∧ build (.mk .Expr (c0 :: .Token tk :: rest)) = some .Err := by
  constructor <;> simp [build]

/-! ## Claim C5: the keyword dispatch at an alphabetic character -/

/-- An alphabetic character is none of the characters whose `isAlpha` is
false (used against the punctuation guards of the dispatch). -/
theorem alpha_ne_char (c d : Char) (h : c.isAlpha = true) (hd : d.isAlpha = false) :
    ¬ c = d := by
  intro hcd
  rw [hcd] at h
  rw [h] at hd
  exact Bool.noConfusion hd

/-- An alphabetic character is not a digit (the code-point ranges of
`isUpper`/`isLower` lie above the digit range). -/
theorem alpha_not_digit (c : Char) (h : c.isAlpha = true) : c.isDigit = false := by
  cases hdig : c.isDigit with
  | false => rfl
  | true =>
      exfalso
      simp only [Char.isAlpha, Char.isUpper, Char.isLower, Bool.or_eq_true,
        Bool.and_eq_true, decide_eq_true_eq] at h
      simp only [Char.isDigit, Bool.and_eq_true, decide_eq_true_eq] at hdig
      rcases h with ⟨h1, _⟩ | ⟨h1, _⟩
      · have h57 : (65 : UInt32) ≤ 57 := UInt32.le_trans h1 hdig.2
        exact absurd h57 (by decide)
      · have h57 : (97 : UInt32) ≤ 57 := UInt32.le_trans h1 hdig.2
        exact absurd h57 (by decide)

/-- Rust `Lexer::keyword` leaves the state unchanged when it does not
match. -/
theorem Lexer.keyword_miss_snd (st : Lexer.LexState) (kw : String)
    (h : (Lexer.keyword st kw).1 = false) : (Lexer.keyword st kw).2 = st := by
  unfold Lexer.keyword at h ⊢
  by_cases hb : st.stop - 1 + kw.length > st.characters.length
  · rw [if_pos hb]
  · rw [if_neg hb] at h ⊢
    have h1 : (if (st.characters.drop (st.stop - 1)).take kw.length = kw.data
        then ((true : Bool), Lexer.advanceTimes (kw.length - 1) st)
        else (false, st)).1 = false := h
    show (if (st.characters.drop (st.stop - 1)).take kw.length = kw.data
        then ((true : Bool), Lexer.advanceTimes (kw.length - 1) st)
        else (false, st)).2 = st
    by_cases hs : (st.characters.drop (st.stop - 1)).take kw.length = kw.data
    · rw [if_pos hs] at h1
      exact absurd h1 (by simp)
    · rw [if_neg hs]

/-- Rust `Lexer::keyword` cannot match `->` when the character at
`end - 1` (the one `next_token` just consumed) is not `-`. -/
theorem Lexer.keyword_arrow_miss (st : Lexer.LexState) (c : Char)
    (hc : st.characters.get? (st.stop - 1) = some c) (hne : ¬ c = '-') :
    (Lexer.keyword st "->").1 = false := by
  unfold Lexer.keyword
  by_cases hb : st.stop - 1 + String.length "->" > st.characters.length
  · rw [if_pos hb]
  · rw [if_neg hb]
    show (if (st.characters.drop (st.stop - 1)).take (String.length "->") = String.data "->"
        then ((true : Bool), Lexer.advanceTimes (String.length "->" - 1) st)
        else (false, st)).1 = false
    by_cases hs : (st.characters.drop (st.stop - 1)).take (String.length "->") =
        String.data "->"
    · exfalso
      have hdg : (st.characters.drop (st.stop - 1)).head? = some c := by
        rw [head_drop_get]; exact hc
      cases hd : st.characters.drop (st.stop - 1) with
      | nil => rw [hd] at hdg; exact Option.noConfusion hdg
      | cons a tl =>
          rw [hd] at hdg hs
          have ha : a = c := by
            simp only [List.head?, Option.some.injEq] at hdg
            exact hdg
          have h2 : a :: tl.take 1 = ['-', '>'] := hs
          have h3 : a = '-' := by injection h2
          exact hne (by rw [← ha]; exact h3)
    · rw [if_neg hs]

/-- Claim C5, amended: for every input position starting with an
alphabetic character `c` (the character `next_token` just consumed, so
`characters[end - 1] = c`), the dispatch attempts exactly the keywords
`if, else, let, def, true, false`, in that order, on the unchanged state
(the `->` lookahead cannot match and leaves the state alone): if one of
the six matches first, the emitted token carries exactly that keyword's
kind (`KeywordIf/KeywordElse/KeywordLet/KeywordDef` or the boolean
literals); `then` and `in` are not in the chain; and a `Name` token is
emitted, via `Lexer::name`, only when none of the six matches. -/
theorem C5_amended_alpha_keyword_dispatch (fuel : Nat) (c : Char)
    (st4 : Lexer.LexState) (tok : Token) (st' : Lexer.LexState)
    (hAlpha : c.isAlpha = true)
    (hChar : st4.characters.get? (st4.stop - 1) = some c)
    (hDisp : Lexer.dispatch fuel c st4 = some (some tok, st')) :
    match Lexer.keywordChain [("if", TokenKind.KeywordIf), ("else", .KeywordElse),
        ("let", .KeywordLet), ("def", .KeywordDef),
        ("true", .LiteralBool true), ("false", .LiteralBool false)] st4 with
    | (some k, st11) => tok = ⟨k, Lexer.position st11⟩ ∧ st' = st11
    | (none, st11) => ∃ s st12, Lexer.name fuel st11 = some (.Name s, st12)
        ∧ tok = ⟨.Name s, Lexer.position st12⟩ ∧ st' = st12 := by
  have hArrow : (Lexer.keyword st4 "->").1 = false :=
    Lexer.keyword_arrow_miss st4 c hChar (alpha_ne_char c '-' hAlpha (by decide))
  have hSnd : (Lexer.keyword st4 "->").2 = st4 :=
    Lexer.keyword_miss_snd st4 "->" hArrow
  unfold Lexer.dispatch at hDisp
  rw [if_neg (alpha_ne_char c '+' hAlpha (by decide))] at hDisp
  rw [hArrow] at hDisp
  rw [if_neg (by simp : ¬ false = true)] at hDisp
  rw [hSnd] at hDisp
  unfold Lexer.dispatchRest at hDisp
  rw [if_neg (alpha_ne_char c '-' hAlpha (by decide))] at hDisp
  rw [if_neg (alpha_ne_char c ':' hAlpha (by decide))] at hDisp
  rw [if_neg (alpha_ne_char c ';' hAlpha (by decide))] at hDisp
  rw [if_neg (alpha_ne_char c ',' hAlpha (by decide))] at hDisp
  rw [if_neg (alpha_ne_char c '=' hAlpha (by decide))] at hDisp
  rw [if_neg (alpha_ne_char c '(' hAlpha (by decide))] at hDisp
  rw [if_neg (alpha_ne_char c ')' hAlpha (by decide))] at hDisp
  rw [if_neg (alpha_ne_char c '{' hAlpha (by decide))] at hDisp
  rw [if_neg (alpha_ne_char c '}' hAlpha (by decide))] at hDisp
  cases hkc : Lexer.keywordChain [("if", TokenKind.KeywordIf), ("else", .KeywordElse),
      ("let", .KeywordLet), ("def", .KeywordDef),
      ("true", .LiteralBool true), ("false", .LiteralBool false)] st4 with
  | mk ok st11 =>
      rw [hkc] at hDisp
      cases ok with
      | some k =>
          simp only [] at hDisp
          simp only [Lexer.mkTok, Option.some.injEq, Prod.mk.injEq] at hDisp
          exact ⟨hDisp.1.symm, hDisp.2.symm⟩
      | none =>
          simp only [] at hDisp
          rw [alpha_not_digit c hAlpha] at hDisp
          rw [if_neg (by simp : ¬ false = true)] at hDisp
          rw [if_pos hAlpha] at hDisp
          cases hn : Lexer.name fuel st11 with
          | none => rw [hn] at hDisp; simp at hDisp
          | some p =>
              obtain ⟨k, st12⟩ := p
              rw [hn] at hDisp
              simp only [] at hDisp
              obtain ⟨sv, hk⟩ := Lexer.name_kind fuel st11 k st12 hn
              subst hk
              simp only [Lexer.mkTok, Option.some.injEq, Prod.mk.injEq] at hDisp
              exact ⟨sv, st12, hn, hDisp.1.symm, hDisp.2.symm⟩

/-- Witness for the amended C5 theorem: the state of lexing `let` right
after `next_token` consumed the alphabetic `l`; the dispatch emits the
`KeywordLet` token because `let` is the first of the six keywords that
matches. -/
theorem C5_amended_witness :
    match Lexer.keywordChain [("if", TokenKind.KeywordIf), ("else", .KeywordElse),
        ("let", .KeywordLet), ("def", .KeywordDef),
        ("true", .LiteralBool true), ("false", .LiteralBool false)]
        ⟨true, 0, 1, 0, 1, 0, ['l', 'e', 't'], []⟩ with
    | (some k, st11) =>
        (⟨.KeywordLet, ⟨0, 0, 0, 3⟩⟩ : Token) = ⟨k, Lexer.position st11⟩
        ∧ (⟨true, 0, 3, 0, 3, 0, ['l', 'e', 't'], []⟩ : Lexer.LexState) = st11
    | (none, st11) => ∃ s st12, Lexer.name 0 st11 = some (.Name s, st12)
        ∧ (⟨.KeywordLet, ⟨0, 0, 0, 3⟩⟩ : Token) = ⟨.Name s, Lexer.position st12⟩
        ∧ (⟨true, 0, 3, 0, 3, 0, ['l', 'e', 't'], []⟩ : Lexer.LexState) = st12 :=
  C5_amended_alpha_keyword_dispatch 0 'l'
    ⟨true, 0, 1, 0, 1, 0, ['l', 'e', 't'], []⟩
    ⟨.KeywordLet, ⟨0, 0, 0, 3⟩⟩ ⟨true, 0, 3, 0, 3, 0, ['l', 'e', 't'], []⟩
    (by decide) rfl rfl
